import Mathlib

/-!
Shallow embedding of the archetype storage engine of the `arche` ECS
(`src/ecs/archetype.go`, `src/ecs/storage.go`, `src/ecs/types.go`).

Memory is modelled at byte granularity: a component column is a `List Nat`
of bytes, a raw pointer is `Option (Nat × Nat)` — `none` is Go's `nil`,
`some (b, off)` is byte offset `off` into buffer number `b`.  Machine
`uint32` arithmetic is modelled on `Nat` with explicit `% 2^32` at the
places the Go code performs `uint32` addition or subtraction.
-/

/-- Modelled from the spec: `MaskTotalBits` (its defining file `mask.go` is
not under `src/`).  The spec's end-to-end scenarios assume the value 64. -/
def MaskTotalBits : Nat := 64

/-- `2^32`, the modulus of Go's `uint32` arithmetic. -/
def U32MOD : Nat := 4294967296

/-- Entity handle: the `Entity` struct (a pair of `uint32` fields, see the
test file's literals `Entity{0, 0}`). -/
structure Entity where
  id : Nat
  gen : Nat
deriving DecidableEq, Repr

/-- `componentType` from `src/ecs/types.go`: a component ID together with a
type descriptor.  Of the `reflect.Type` only `Size()` and `Align()` are
consumed by the archetype code, so the descriptor is embedded as the pair
`(size, align)`. -/
structure componentType where
  id : Nat
  size : Nat
  align : Nat
deriving DecidableEq, Repr

/-- A raw pointer: `none` is Go `nil`; `some (b, off)` points at byte
offset `off` of buffer number `b`. -/
abbrev RawPtr := Option (Nat × Nat)

/-- `layout` from `src/ecs/archetype.go` (lines 72–76): specification of a
component column. -/
structure layout where
  pointer : RawPtr
  itemSize : Nat
deriving DecidableEq, Repr

/-- `layout.Get` (archetype.go lines 78–84): nil pointer propagates,
otherwise `unsafe.Add(l.pointer, l.itemSize*index)`. -/
def layout.Get (l : layout) (index : Nat) : RawPtr :=
  match l.pointer with
  | none => none
  | some p => some (p.1, p.2 + l.itemSize * index)

/- ### Byte-buffer primitives

`writeBytes buf off src` copies the bytes of `src` into `buf` starting at
offset `off` (Go's `copy` of a byte slice); writes past the end of `buf`
are dropped, as they are out of the allocation.  `readBytes buf off n`
reads `n` bytes starting at `off`. -/

def writeBytes : List Nat → Nat → List Nat → List Nat
  | buf, _, [] => buf
  | buf, off, b :: bs => writeBytes (buf.set off b) (off + 1) bs

def readBytes : List Nat → Nat → Nat → List Nat
  | _, _, 0 => []
  | buf, off, n + 1 => buf.getD off 0 :: readBytes buf (off + 1) n

/- ### The reflection-based `Storage` of `src/ecs/storage.go`

`data` is the backing allocation of `cap * itemSize` bytes; `len`, `cap`
and `capacityIncrement` are `uint32` fields, so decrement and increment
wrap modulo `2^32` exactly where the Go code performs them. -/

structure Storage where
  data : List Nat
  itemSize : Nat
  len : Nat
  cap : Nat
  capacityIncrement : Nat
deriving DecidableEq, Repr

/-- `NewReflectStorage` (storage.go lines 21–34). -/
def NewReflectStorage (itemSize : Nat) (increment : Nat) : Storage :=
  { data := List.replicate (increment * itemSize) 0
    itemSize := itemSize
    len := 0
    cap := increment
    capacityIncrement := increment }

/-- `Storage.Get` (storage.go lines 42–46) computes the byte offset
`index * itemSize` into the buffer; here it is the offset itself. -/
def Storage.GetOffset (s : Storage) (index : Nat) : Nat :=
  index * s.itemSize

/-- The `itemSize` bytes of the element at `index`, as a caller
dereferencing `Storage.Get` reads them. -/
def Storage.getBytes (s : Storage) (index : Nat) : List Nat :=
  readBytes s.data (index * s.itemSize) s.itemSize

/-- `Storage.extend` (storage.go lines 72–80): when `cap < len + 1`, the
capacity grows by `capacityIncrement` (uint32 addition), a fresh zeroed
allocation of the new capacity is made and the old bytes are copied in by
`reflect.Copy`. -/
def Storage.extend (s : Storage) : Storage :=
  if s.cap < s.len + 1 then
    let newCap := (s.cap + s.capacityIncrement) % U32MOD
    { s with
      cap := newCap
      data := writeBytes (List.replicate (newCap * s.itemSize) 0) 0 s.data }
  else s

/-- `Storage.Add` (storage.go lines 48–54): extend, `len++`, copy the
`itemSize` bytes of `value` into slot `len-1`, return `len-1`. -/
def Storage.Add (s : Storage) (value : List Nat) : Storage × Nat :=
  let s1 := s.extend
  let newLen := (s1.len + 1) % U32MOD
  let idx := (newLen + (U32MOD - 1)) % U32MOD
  (⟨writeBytes s1.data (idx * s1.itemSize) (readBytes value 0 s1.itemSize),
    s1.itemSize, newLen, s1.cap, s1.capacityIncrement⟩, idx)

/-- `Storage.Alloc` (storage.go lines 64–70): extend, `len++`, zero the
new slot, return it. -/
def Storage.Alloc (s : Storage) : Storage × Nat :=
  let s1 := s.extend
  let newLen := (s1.len + 1) % U32MOD
  let idx := (newLen + (U32MOD - 1)) % U32MOD
  (⟨writeBytes s1.data (idx * s1.itemSize) (List.replicate s1.itemSize 0),
    s1.itemSize, newLen, s1.cap, s1.capacityIncrement⟩, idx)

/-- `Storage.Remove` (storage.go lines 82–105).  `o := s.len - 1` is a
`uint32` subtraction, hence wraps on an empty storage; no bounds check is
performed.  If `index < o` the bytes of element `o` are copied over
element `index` and `true` is returned, else only `len--` happens. -/
def Storage.Remove (s : Storage) (index : Nat) : Storage × Bool :=
  if index < (s.len + (U32MOD - 1)) % U32MOD then
    (⟨writeBytes s.data (index * s.itemSize)
        (readBytes s.data (((s.len + (U32MOD - 1)) % U32MOD) * s.itemSize) s.itemSize),
      s.itemSize, (s.len + (U32MOD - 1)) % U32MOD, s.cap, s.capacityIncrement⟩, true)
  else
    (⟨s.data, s.itemSize, (s.len + (U32MOD - 1)) % U32MOD, s.cap, s.capacityIncrement⟩, false)

/-- Modelled from the spec: the archetype's entities column has type
`storage` (lower case), whose defining file is not under `src/`; only its
callers in `archetype.go` are.  Per §4.1 of the spec it is a column of
`Entity` values with append and swap-remove exactly as implemented by
`Storage.Add` / `Storage.Remove` of `src/ecs/storage.go`; it is embedded
at element granularity (each element is one `Entity`). -/
structure entityStorage where
  items : List Entity
deriving DecidableEq, Repr

/-- Append an entity, returning the new storage and the index of the new
element (the old length). -/
def entityStorage.Add (s : entityStorage) (e : Entity) : entityStorage × Nat :=
  (⟨s.items ++ [e]⟩, s.items.length)

/-- Element access (`storage.Get`). -/
def entityStorage.Get (s : entityStorage) (index : Nat) : Entity :=
  s.items.getD index ⟨0, 0⟩

/-- Length (`storage.Len`). -/
def entityStorage.Len (s : entityStorage) : Nat :=
  s.items.length

/-- Swap-remove, following `Storage.Remove` of storage.go: if
`index < len - 1` the last element is copied over `index` and `true` is
returned; the length shrinks by one either way. -/
def entityStorage.Remove (s : entityStorage) (index : Nat) : entityStorage × Bool :=
  if index < s.items.length - 1 then
    (⟨(s.items.set index (s.items.getD (s.items.length - 1) ⟨0, 0⟩)).take
        (s.items.length - 1)⟩, true)
  else
    (⟨s.items.take (s.items.length - 1)⟩, false)

/- ### The archetype (`src/ecs/archetype.go`)

`buffers` is parallel to `Ids` (one byte buffer per component, in the
order of `Ids`); `layouts` and `indices` are the `MaskTotalBits`-sized
access tables indexed by component id; `mask` is the bitset built by
`mask.Set(c.ID, true)` in `Init` (the `Mask` type's file is not under
`src/`; it is embedded as a list of `MaskTotalBits` booleans).  The
pointer stored in `layouts[id]` is `some (i, 0)` where `i` is the
position of the component in `Ids` — i.e. the base of buffer number `i`.
`graphNode` and the `access` base pointer carry no information in the
embedding: `getStorage` below indexes `layouts` directly, which is what
the Go pointer arithmetic `basePointer + layoutSize*id` computes. -/

structure archetype where
  Ids : List Nat
  buffers : List (List Nat)
  layouts : List layout
  indices : List Nat
  mask : List Bool
  entities : entityStorage
  len : Nat
  cap : Nat
  capacityIncrement : Nat
deriving DecidableEq, Repr

/-- `archetypeAccess.getStorage` (archetype.go lines 147–149): the layout
entry of a component id. -/
def archetype.getStorage (a : archetype) (id : Nat) : layout :=
  a.layouts.getD id ⟨none, 0⟩

/-- `archetypeAccess.Get` (archetype.go lines 143–145): pointer to the
component with the given id at the given index. -/
def archetype.accessGet (a : archetype) (index : Nat) (id : Nat) : RawPtr :=
  (a.getStorage id).Get index

/-- `archetype.HasComponent` (archetype.go lines 254–256). -/
def archetype.HasComponent (a : archetype) (id : Nat) : Bool :=
  (a.getStorage id).pointer.isSome

/-- `archetype.GetEntity` (archetype.go lines 138–140). -/
def archetype.GetEntity (a : archetype) (index : Nat) : Entity :=
  a.entities.Get index

/-- The `itemSize` bytes a caller reads by dereferencing
`accessGet index id` (memcmp view of one component value). -/
def archetype.getBytes (a : archetype) (index id : Nat) : List Nat :=
  match a.accessGet index id with
  | none => []
  | some p => readBytes (a.buffers.getD p.1 []) p.2 (a.getStorage id).itemSize

/-- The size rounding of `archetype.Init` (archetype.go line 111):
`size = (size + (align - 1)) / align * align`. -/
def roundUp (size align : Nat) : Nat :=
  (size + (align - 1)) / align * align

/-- The sortedness check of `archetype.Init` (archetype.go lines 102–107):
`prev` starts at `-1` and every id must strictly exceed the previous one,
else the code panics. -/
def sortedCheck : List componentType → Int → Bool
  | [], _ => true
  | c :: cs, prev => if (c.id : Int) ≤ prev then false else sortedCheck cs (c.id : Int)

/-- The per-component table fill of `archetype.Init`'s loop: starting from
a pre-allocated table, slot `c.id` is overwritten with `f i c` for the
`i`-th component `c`. -/
def scatter {α : Type} (f : Nat → componentType → α) :
    List componentType → Nat → List α → List α
  | [], _, ls => ls
  | c :: cs, i, ls => scatter f cs (i + 1) (ls.set c.id (f i c))

/-- `archetype.Init` (archetype.go lines 87–135).  Panics — modelled as
`none` — when the component list is not strictly sorted by id, or when an
id is out of range of the `MaskTotalBits`-sized tables (a Go index panic).
Otherwise: `cap` is `capacityIncrement` if `forStorage` else 1; for the
`i`-th component, a buffer of `cap` items is allocated (Go strides arrays
by the type's `Size()`, which Go guarantees is a multiple of `Align()`, so
the allocation holds `cap * itemSize` bytes), `layouts[c.ID]` gets the
buffer's base pointer and the rounded item size, `indices[c.ID] = i`, and
the mask bit `c.ID` is set.  `reflect.New` never returns a nil pointer,
also for zero-sized types, so the stored pointer is `some (i, 0)`
regardless of size. -/
def archetype.Init (capacityIncrement : Nat) (forStorage : Bool)
    (components : List componentType) : Option archetype :=
  if sortedCheck components (-1) = true ∧ components.all (fun c => c.id < MaskTotalBits) then
    let cap := if forStorage then capacityIncrement else 1
    some
      { Ids := components.map (fun c => c.id)
        buffers := components.map (fun c => List.replicate (cap * roundUp c.size c.align) 0)
        layouts := scatter (fun i c => ⟨some (i, 0), roundUp c.size c.align⟩)
          components 0 (List.replicate MaskTotalBits ⟨none, 0⟩)
        indices := scatter (fun i _ => i) components 0 (List.replicate MaskTotalBits 0)
        mask := scatter (fun _ _ => true) components 0 (List.replicate MaskTotalBits false)
        entities := ⟨[]⟩
        len := 0
        cap := cap
        capacityIncrement := capacityIncrement }
  else none

/-- The capacity formula of `archetype.extend` (archetype.go line 166):
`capacityIncrement * ((cap + capacityIncrement) / capacityIncrement)` in
`uint32` arithmetic; Go's integer `/` is floor division. -/
def growCap (cap inc : Nat) : Nat :=
  (inc * (((cap + inc) % U32MOD) / inc)) % U32MOD

/-- The loop body of `archetype.extend` (archetype.go lines 168–178):
`lay := a.access.getStorage(id)`; skip zero-sized columns; otherwise the
buffer at `a.indices[id]` is reallocated at `newCap` items, zeroed, and
the old bytes are copied in (`reflect.Copy`). -/
def archetype.extendStep (a : archetype) (newCap : Nat)
    (bs : List (List Nat)) (id : Nat) : List (List Nat) :=
  if (a.getStorage id).itemSize = 0 then bs
  else
    bs.set (a.indices.getD id 0)
      (writeBytes (List.replicate (newCap * (a.getStorage id).itemSize) 0) 0
        (bs.getD (a.indices.getD id 0) []))

/-- `archetype.extend` (archetype.go lines 162–179).  Nothing happens
while `cap > len`.  Otherwise the capacity becomes `growCap cap inc` and
every column of non-zero item size is reallocated at the new capacity
with its old bytes copied in; zero-sized columns are skipped.  The
reallocation gives each column a fresh base address; buffer numbers are
stable in the embedding, so the stored pointers are unchanged. -/
def archetype.extend (a : archetype) : archetype :=
  if a.len < a.cap then a
  else
    let newCap := growCap a.cap a.capacityIncrement
    { a with cap := newCap, buffers := a.Ids.foldl (a.extendStep newCap) a.buffers }

/-- The body of `archetype.Zero` (archetype.go lines 211–222): for a
component id whose item size is not zero, the `itemSize` bytes at
`pointer + index*itemSize` are set to 0. -/
def archetype.zeroStep (a : archetype) (index : Nat)
    (bs : List (List Nat)) (id : Nat) : List (List Nat) :=
  if (a.getStorage id).itemSize = 0 then bs
  else
    match (a.getStorage id).pointer with
    | none => bs
    | some p =>
      bs.set p.1
        (writeBytes (bs.getD p.1 []) (p.2 + index * (a.getStorage id).itemSize)
          (List.replicate (a.getStorage id).itemSize 0))

/-- `archetype.ZeroAll` (archetype.go lines 204–208): `Zero` every
component id of the archetype at the given row. -/
def archetype.ZeroAll (a : archetype) (index : Nat) : archetype :=
  { a with buffers := a.Ids.foldl (a.zeroStep index) a.buffers }

/-- `archetype.Alloc` (archetype.go lines 152–160): append the entity to
the entities column, extend the component columns, zero the new row only
when `zero` is set, `len++` (uint32), return the new row index. -/
def archetype.Alloc (a : archetype) (entity : Entity) (zero : Bool) : archetype × Nat :=
  let s := a.entities.Add entity
  let a1 := { a with entities := s.1 }
  let a2 := a1.extend
  let a3 := if zero then a2.ZeroAll s.2 else a2
  ({ a3 with len := (a3.len + 1) % U32MOD }, s.2)

/-- `archetype.Set` (archetype.go lines 269–280): copy the `itemSize`
bytes of `comp` over the component `id` of row `index`; a no-op for
zero-sized components.  (The Go function also returns the destination
pointer, which is `accessGet index id`.) -/
def archetype.Set (a : archetype) (index id : Nat) (comp : List Nat) : archetype :=
  if (a.getStorage id).itemSize = 0 then a
  else
    match a.accessGet index id with
    | none => a
    | some p =>
      { a with
        buffers := a.buffers.set p.1
          (writeBytes (a.buffers.getD p.1 []) p.2
            (readBytes comp 0 (a.getStorage id).itemSize)) }

/-- `archetype.Add` (archetype.go lines 182–201): panics — modelled as
`none` — when the number of supplied components differs from the number
of the archetype's component ids.  Otherwise appends the entity, extends,
`len++`, and copies each supplied component's bytes into its column at
the new row (skipping zero-sized components, exactly as `Set` does).
Components are given as `(id, bytes)` pairs. -/
def archetype.Add (a : archetype) (entity : Entity)
    (components : List (Nat × List Nat)) : Option (archetype × Nat) :=
  if components.length ≠ a.Ids.length then none
  else
    let s := a.entities.Add entity
    let a1 := { a with entities := s.1 }
    let a2 := a1.extend
    let a3 := { a2 with len := (a2.len + 1) % U32MOD }
    some (components.foldl (fun acc c => acc.Set s.2 c.1 c.2) a3, s.2)

/-- The loop body of `archetype.Remove` (archetype.go lines 229–241):
skip when `index = oldIndex` or the item size is zero, otherwise copy the
`itemSize` bytes at `pointer + oldIndex*itemSize` over those at
`pointer + index*itemSize`. -/
def archetype.removeStep (a : archetype) (index oldIndex : Nat)
    (bs : List (List Nat)) (id : Nat) : List (List Nat) :=
  if index = oldIndex ∨ (a.getStorage id).itemSize = 0 then bs
  else
    match (a.getStorage id).pointer with
    | none => bs
    | some p =>
      bs.set p.1
        (writeBytes (bs.getD p.1 []) (p.2 + index * (a.getStorage id).itemSize)
          (readBytes (bs.getD p.1 []) (p.2 + oldIndex * (a.getStorage id).itemSize)
            (a.getStorage id).itemSize))

/-- `archetype.Remove` (archetype.go lines 225–246): swap-remove the row
in the entities column; `oldIndex := a.len - 1` is a `uint32`
subtraction; run `removeStep` for every component id; then `len--`;
return the boolean from the entities column. -/
def archetype.Remove (a : archetype) (index : Nat) : archetype × Bool :=
  let es := a.entities.Remove index
  let oldIndex := (a.len + (U32MOD - 1)) % U32MOD
  ({ a with
      entities := es.1
      buffers := a.Ids.foldl (a.removeStep index oldIndex) a.buffers
      len := (a.len + (U32MOD - 1)) % U32MOD }, es.2)

/- ### Well-formedness of an archetype

The invariant established by `archetype.Init` and preserved by the
operations (spec §3): ids strictly increasing and in range, the access
tables consistent (`indices` and the layout pointer of the `k`-th id both
name buffer `k`), each buffer holding `cap * itemSize` bytes, the entities
column in lockstep with `len`, and the `uint32` fields in range. -/

def archetype.WF (a : archetype) : Prop :=
  List.Pairwise (· < ·) a.Ids ∧
  (∀ id ∈ a.Ids, id < MaskTotalBits) ∧
  a.layouts.length = MaskTotalBits ∧
  a.buffers.length = a.Ids.length ∧
  a.entities.items.length = a.len ∧
  a.len ≤ a.cap ∧
  a.cap < U32MOD ∧
  0 < a.capacityIncrement ∧
  (∀ k, k < a.Ids.length →
    a.indices.getD (a.Ids.getD k 0) 0 = k ∧
    (a.getStorage (a.Ids.getD k 0)).pointer = some (k, 0) ∧
    (a.buffers.getD k []).length = a.cap * (a.getStorage (a.Ids.getD k 0)).itemSize) ∧
  (∀ id, id < MaskTotalBits → id ∉ a.Ids → a.getStorage id = ⟨none, 0⟩)

instance (a : archetype) : Decidable a.WF := by
  unfold archetype.WF
  infer_instance

/-- The structural part of `WF` that the per-column folds rely on: it
mentions neither `len` nor the entities column, so it also holds for the
intermediate states inside `Alloc`/`Add`/`Remove`. -/
def archetype.WFcore (a : archetype) : Prop :=
  a.buffers.length = a.Ids.length ∧
  (∀ k, k < a.Ids.length →
    a.indices.getD (a.Ids.getD k 0) 0 = k ∧
    (a.getStorage (a.Ids.getD k 0)).pointer = some (k, 0) ∧
    (a.buffers.getD k []).length = a.cap * (a.getStorage (a.Ids.getD k 0)).itemSize)

/- ### Concrete values used to exercise the theorems -/

/-- Fallback value for `Option.getD` on `archetype.Init` results. -/
def emptyArchetype : archetype :=
  { Ids := [], buffers := [], layouts := [], indices := [], mask := []
    entities := ⟨[]⟩, len := 0, cap := 0, capacityIncrement := 0 }

/-- A storage archetype with one 1-byte component of id 0 and capacity 2. -/
def demoArch : archetype :=
  (archetype.Init 2 true [{ id := 0, size := 1, align := 1 }]).getD emptyArchetype

/-- `demoArch` populated with two entities whose component bytes are `7`
and `9`. -/
def demoArch2 : archetype :=
  (((demoArch.Alloc ⟨1, 0⟩ true).1.Set 0 0 [7]).Alloc ⟨2, 0⟩ true).1.Set 1 0 [9]

/-- A holder archetype (`forStorage = false`, so `cap = 1`) with increment
2 and one 1-byte component: its capacity 1 is not a multiple of the
increment. -/
def demoArchHolder : archetype :=
  (archetype.Init 2 false [{ id := 0, size := 1, align := 1 }]).getD emptyArchetype

/-- An archetype with a single zero-sized component of id 3. -/
def demoArchTag : archetype :=
  (archetype.Init 2 true [{ id := 3, size := 0, align := 1 }]).getD emptyArchetype

/-- An archetype mixing a 2-byte component (id 1) and a zero-sized tag
(id 4). -/
def demoArchMixed : archetype :=
  (archetype.Init 2 true
    [{ id := 1, size := 2, align := 1 }, { id := 4, size := 0, align := 1 }]).getD emptyArchetype

/-- An archetype with one component of size 5 and alignment 4: the stored
item size is 8, not 5. -/
def demoArchPad : archetype :=
  (archetype.Init 4 true [{ id := 2, size := 5, align := 4 }]).getD emptyArchetype

/-- A concrete byte storage with two 1-byte elements `7` and `9`. -/
def demoStore : Storage :=
  { data := [7, 9], itemSize := 1, len := 2, cap := 2, capacityIncrement := 2 }

/-- A concrete empty byte storage with capacity 2. -/
def demoStoreEmpty : Storage :=
  { data := [0, 0], itemSize := 1, len := 0, cap := 2, capacityIncrement := 2 }

/- ### Lemmas: byte buffers -/

theorem writeBytes_length (src : List Nat) :
    ∀ (buf : List Nat) (off : Nat), (writeBytes buf off src).length = buf.length := by
  induction src with
  | nil => intro buf off; rfl
  | cons b bs ih =>
    intro buf off
    simp [writeBytes, ih, List.length_set]

theorem readBytes_length (n : Nat) :
    ∀ (buf : List Nat) (off : Nat), (readBytes buf off n).length = n := by
  induction n with
  | zero => intro buf off; rfl
  | succ m ih => intro buf off; simp [readBytes, ih]

theorem getD_set_ne {α : Type} (l : List α) (i j : Nat) (v d : α) (h : i ≠ j) :
    (l.set i v).getD j d = l.getD j d := by
  simp [List.getD_eq_getElem?_getD, List.getElem?_set_ne h]

theorem getD_set_self {α : Type} (l : List α) (i : Nat) (v d : α) (h : i < l.length) :
    (l.set i v).getD i d = v := by
  simp [List.getD_eq_getElem?_getD, List.getElem?_set_self, h]

theorem getD_eq_getElem {α : Type} (l : List α) (i : Nat) (h : i < l.length) (d : α) :
    l.getD i d = l[i] := by
  simp [List.getD_eq_getElem?_getD, List.getElem?_eq_getElem h]

theorem getD_writeBytes_lt (src : List Nat) :
    ∀ (buf : List Nat) (off j : Nat), j < off →
      (writeBytes buf off src).getD j 0 = buf.getD j 0 := by
  induction src with
  | nil => intro buf off j _; rfl
  | cons b bs ih =>
    intro buf off j hj
    have h1 : j < off + 1 := Nat.lt_succ_of_lt hj
    rw [writeBytes, ih (buf.set off b) (off + 1) j h1,
      getD_set_ne buf off j b 0 (Nat.ne_of_gt hj)]

theorem getD_writeBytes_ge (src : List Nat) :
    ∀ (buf : List Nat) (off j : Nat), off + src.length ≤ j →
      (writeBytes buf off src).getD j 0 = buf.getD j 0 := by
  induction src with
  | nil => intro buf off j _; rfl
  | cons b bs ih =>
    intro buf off j hj
    simp only [List.length_cons] at hj
    have h1 : off + 1 + bs.length ≤ j := by omega
    have h2 : off ≠ j := by omega
    rw [writeBytes, ih (buf.set off b) (off + 1) j h1, getD_set_ne buf off j b 0 h2]

theorem readBytes_writeBytes (src : List Nat) :
    ∀ (buf : List Nat) (off : Nat), off + src.length ≤ buf.length →
      readBytes (writeBytes buf off src) off src.length = src := by
  induction src with
  | nil => intro buf off _; rfl
  | cons b bs ih =>
    intro buf off h
    simp only [List.length_cons] at h ⊢
    rw [writeBytes, readBytes]
    have hoff : off < buf.length := by omega
    have hlen : off + 1 + bs.length ≤ (buf.set off b).length := by
      simp [List.length_set]; omega
    rw [ih (buf.set off b) (off + 1) hlen]
    rw [getD_writeBytes_lt bs (buf.set off b) (off + 1) off (Nat.lt_succ_self off)]
    rw [getD_set_self buf off b 0 hoff]

theorem readBytes_congr (n : Nat) :
    ∀ (b1 b2 : List Nat) (o1 o2 : Nat),
      (∀ i, i < n → b1.getD (o1 + i) 0 = b2.getD (o2 + i) 0) →
      readBytes b1 o1 n = readBytes b2 o2 n := by
  induction n with
  | zero => intro _ _ _ _ _; rfl
  | succ m ih =>
    intro b1 b2 o1 o2 h
    rw [readBytes, readBytes]
    have h0 := h 0 (Nat.succ_pos m)
    simp only [Nat.add_zero] at h0
    rw [h0, ih b1 b2 (o1 + 1) (o2 + 1)]
    intro i hi
    have := h (i + 1) (by omega)
    simpa [Nat.add_assoc, Nat.add_comm 1 i] using this

theorem readBytes_cons_shift (n : Nat) :
    ∀ (b : Nat) (bs : List Nat) (off : Nat),
      readBytes (b :: bs) (off + 1) n = readBytes bs off n := by
  induction n with
  | zero => intro _ _ _; rfl
  | succ m ih =>
    intro b bs off
    rw [readBytes, readBytes, ih]
    simp [List.getD_cons_succ]

theorem readBytes_eq_self (buf : List Nat) :
    readBytes buf 0 buf.length = buf := by
  induction buf with
  | nil => rfl
  | cons b bs ih =>
    rw [List.length_cons, readBytes]
    rw [readBytes_cons_shift bs.length b bs 0, ih]
    rfl

/- ### Lemmas: the per-column folds

Each Go loop over `a.Ids` touches, per iteration, at most the single
buffer slot belonging to that id.  The lemmas below read off the result
of such a fold at one slot. -/

theorem foldl_length_frame (f : List (List Nat) → Nat → List (List Nat)) :
    ∀ (ids : List Nat) (b : List (List Nat)),
      (∀ id ∈ ids, ∀ bs, (f bs id).length = bs.length) →
      (ids.foldl f b).length = b.length := by
  intro ids
  induction ids with
  | nil => intro b _; rfl
  | cons x xs ih =>
    intro b h
    rw [List.foldl_cons, ih (f b x) (fun id hid bs => h id (List.mem_cons_of_mem x hid) bs),
      h x (List.mem_cons_self x xs) b]

theorem foldl_getD_frame (f : List (List Nat) → Nat → List (List Nat)) :
    ∀ (ids : List Nat) (b : List (List Nat)) (j : Nat),
      (∀ id ∈ ids, ∀ bs, (f bs id).getD j [] = bs.getD j []) →
      (ids.foldl f b).getD j [] = b.getD j [] := by
  intro ids
  induction ids with
  | nil => intro b j _; rfl
  | cons x xs ih =>
    intro b j h
    rw [List.foldl_cons, ih (f b x) j (fun id hid bs => h id (List.mem_cons_of_mem x hid) bs),
      h x (List.mem_cons_self x xs) b]

theorem foldl_getD_single (f : List (List Nat) → Nat → List (List Nat))
    (l1 l2 : List Nat) (t : Nat) (b : List (List Nat)) (j : Nat)
    (hlen : ∀ id ∈ l1, ∀ bs, (f bs id).length = bs.length)
    (h1 : ∀ id ∈ l1, ∀ bs, (f bs id).getD j [] = bs.getD j [])
    (h2 : ∀ id ∈ l2, ∀ bs, (f bs id).getD j [] = bs.getD j [])
    (ht : ∀ bs, bs.length = b.length → bs.getD j [] = b.getD j [] →
      (f bs t).getD j [] = (f b t).getD j []) :
    ((l1 ++ t :: l2).foldl f b).getD j [] = (f b t).getD j [] := by
  rw [List.foldl_append, List.foldl_cons, foldl_getD_frame f l2 _ j h2]
  exact ht (l1.foldl f b) (foldl_length_frame f l1 b hlen) (foldl_getD_frame f l1 b j h1)

/- ### Lemmas: positions in a strictly sorted id list -/

theorem pairwise_getD_ne (l : List Nat) (hp : List.Pairwise (· < ·) l)
    (i j : Nat) (hi : i < l.length) (hj : j < l.length) (hne : i ≠ j) :
    l.getD i 0 ≠ l.getD j 0 := by
  rw [getD_eq_getElem l i hi, getD_eq_getElem l j hj]
  rcases Nat.lt_or_ge i j with h | h
  · exact Nat.ne_of_lt (List.pairwise_iff_getElem.mp hp i j hi hj h)
  · have hji : j < i := by omega
    exact (Nat.ne_of_lt (List.pairwise_iff_getElem.mp hp j i hj hi hji)).symm

theorem mem_take_getD (l : List Nat) (k x : Nat) (hx : x ∈ l.take k) :
    ∃ j, j < k ∧ j < l.length ∧ l.getD j 0 = x := by
  obtain ⟨j, hj, hval⟩ := List.mem_iff_getElem.mp hx
  have hlen : j < k ∧ j < l.length := by
    have := hj
    simp [List.length_take, Nat.lt_min] at this
    exact this
  refine ⟨j, hlen.1, hlen.2, ?_⟩
  rw [getD_eq_getElem l j hlen.2]
  rw [List.getElem_take] at hval
  exact hval

theorem mem_drop_getD (l : List Nat) (k x : Nat) (hx : x ∈ l.drop k) :
    ∃ j, k ≤ j ∧ j < l.length ∧ l.getD j 0 = x := by
  obtain ⟨j, hj, hval⟩ := List.mem_iff_getElem.mp hx
  have hlen : k + j < l.length := by
    have := hj
    simp [List.length_drop] at this
    omega
  refine ⟨k + j, Nat.le_add_right k j, hlen, ?_⟩
  rw [getD_eq_getElem l (k + j) hlen]
  rw [List.getElem_drop] at hval
  exact hval

theorem split_at_getD (l : List Nat) (k : Nat) (h : k < l.length) :
    l = l.take k ++ l.getD k 0 :: l.drop (k + 1) := by
  conv_lhs => rw [← List.take_append_drop k l]
  congr 1
  rw [getD_eq_getElem l k h]
  exact (@List.getElem_cons_drop _ l k h).symm

theorem mem_getD (l : List Nat) (x : Nat) (hx : x ∈ l) :
    ∃ j, j < l.length ∧ l.getD j 0 = x := by
  obtain ⟨j, hj, hval⟩ := List.mem_iff_getElem.mp hx
  exact ⟨j, hj, by rw [getD_eq_getElem l j hj]; exact hval⟩

/- ### Lemmas: the growth formula -/

theorem growCap_eq (cap inc : Nat) (h : cap + inc < U32MOD) (_hi : 0 < inc) :
    growCap cap inc = inc * ((cap + inc) / inc) := by
  unfold growCap
  rw [Nat.mod_eq_of_lt h]
  apply Nat.mod_eq_of_lt
  calc inc * ((cap + inc) / inc) = (cap + inc) / inc * inc := Nat.mul_comm _ _
    _ ≤ cap + inc := Nat.div_mul_le_self _ _
    _ < U32MOD := h

theorem growCap_gt (cap inc : Nat) (h : cap + inc < U32MOD) (hi : 0 < inc) :
    cap < growCap cap inc := by
  rw [growCap_eq cap inc h hi, Nat.add_div_right cap hi, Nat.mul_add, Nat.mul_one]
  have h2 : cap % inc < inc := Nat.mod_lt cap hi
  have h3 : inc * (cap / inc) + cap % inc = cap := Nat.div_add_mod cap inc
  omega

theorem growCap_dvd (cap inc : Nat) (h : cap + inc < U32MOD) (hi : 0 < inc) :
    inc ∣ growCap cap inc := by
  rw [growCap_eq cap inc h hi]
  exact ⟨(cap + inc) / inc, rfl⟩

theorem growCap_min (cap inc m : Nat) (h : cap + inc < U32MOD) (hi : 0 < inc)
    (hdvd : inc ∣ m) (hgt : cap < m) : growCap cap inc ≤ m := by
  rw [growCap_eq cap inc h hi, Nat.add_div_right cap hi]
  obtain ⟨t, rfl⟩ := hdvd
  have hlt : cap / inc < t := by
    apply (Nat.div_lt_iff_lt_mul hi).mpr
    rw [Nat.mul_comm]
    exact hgt
  exact Nat.mul_le_mul_left inc (by omega)

/- ### Lemmas: field projections of the operations -/

theorem extend_of_lt (a : archetype) (h : a.len < a.cap) : a.extend = a := by
  unfold archetype.extend
  rw [if_pos h]

theorem extend_cap_grow (a : archetype) (h : ¬ a.len < a.cap) :
    (a.extend).cap = growCap a.cap a.capacityIncrement := by
  unfold archetype.extend
  rw [if_neg h]

theorem extend_buffers_grow (a : archetype) (h : ¬ a.len < a.cap) :
    (a.extend).buffers =
      a.Ids.foldl (a.extendStep (growCap a.cap a.capacityIncrement)) a.buffers := by
  unfold archetype.extend
  rw [if_neg h]

theorem extend_layouts (a : archetype) : (a.extend).layouts = a.layouts := by
  unfold archetype.extend
  split <;> rfl

theorem extend_getStorage (a : archetype) (id : Nat) :
    (a.extend).getStorage id = a.getStorage id := by
  unfold archetype.getStorage
  rw [extend_layouts]

theorem extend_len (a : archetype) : (a.extend).len = a.len := by
  unfold archetype.extend
  split <;> rfl

theorem extend_Ids (a : archetype) : (a.extend).Ids = a.Ids := by
  unfold archetype.extend
  split <;> rfl

theorem extend_indices (a : archetype) : (a.extend).indices = a.indices := by
  unfold archetype.extend
  split <;> rfl

theorem extend_entities (a : archetype) : (a.extend).entities = a.entities := by
  unfold archetype.extend
  split <;> rfl

theorem extend_capacityIncrement (a : archetype) :
    (a.extend).capacityIncrement = a.capacityIncrement := by
  unfold archetype.extend
  split <;> rfl

theorem extend_cap_ge (a : archetype) : a.cap ≤ (a.extend).cap ∨ ¬ a.len < a.cap := by
  by_cases h : a.len < a.cap
  · rw [extend_of_lt a h]
    exact Or.inl (Nat.le_refl _)
  · exact Or.inr h

theorem zeroAll_buffers (a : archetype) (i : Nat) :
    (a.ZeroAll i).buffers = a.Ids.foldl (a.zeroStep i) a.buffers := rfl

theorem zeroAll_len (a : archetype) (i : Nat) : (a.ZeroAll i).len = a.len := rfl

theorem zeroAll_cap (a : archetype) (i : Nat) : (a.ZeroAll i).cap = a.cap := rfl

theorem zeroAll_layouts (a : archetype) (i : Nat) : (a.ZeroAll i).layouts = a.layouts := rfl

theorem zeroAll_getStorage (a : archetype) (i id : Nat) :
    (a.ZeroAll i).getStorage id = a.getStorage id := rfl

theorem zeroAll_Ids (a : archetype) (i : Nat) : (a.ZeroAll i).Ids = a.Ids := rfl

theorem zeroAll_entities (a : archetype) (i : Nat) : (a.ZeroAll i).entities = a.entities := rfl

theorem remove_fst_len (a : archetype) (i : Nat) :
    (a.Remove i).1.len = (a.len + (U32MOD - 1)) % U32MOD := rfl

theorem remove_fst_buffers (a : archetype) (i : Nat) :
    (a.Remove i).1.buffers =
      a.Ids.foldl (a.removeStep i ((a.len + (U32MOD - 1)) % U32MOD)) a.buffers := rfl

theorem remove_fst_entities (a : archetype) (i : Nat) :
    (a.Remove i).1.entities = (a.entities.Remove i).1 := rfl

theorem remove_snd (a : archetype) (i : Nat) :
    (a.Remove i).2 = (a.entities.Remove i).2 := rfl

theorem remove_fst_getStorage (a : archetype) (i id : Nat) :
    (a.Remove i).1.getStorage id = a.getStorage id := rfl

theorem remove_fst_Ids (a : archetype) (i : Nat) : (a.Remove i).1.Ids = a.Ids := rfl

theorem set_len (a : archetype) (i id : Nat) (c : List Nat) : (a.Set i id c).len = a.len := by
  unfold archetype.Set
  split
  · rfl
  · split <;> rfl

theorem set_entities (a : archetype) (i id : Nat) (c : List Nat) :
    (a.Set i id c).entities = a.entities := by
  unfold archetype.Set
  split
  · rfl
  · split <;> rfl

theorem set_layouts (a : archetype) (i id : Nat) (c : List Nat) :
    (a.Set i id c).layouts = a.layouts := by
  unfold archetype.Set
  split
  · rfl
  · split <;> rfl

theorem set_getStorage (a : archetype) (i id jd : Nat) (c : List Nat) :
    (a.Set i id c).getStorage jd = a.getStorage jd := by
  unfold archetype.getStorage
  rw [set_layouts]

theorem set_Ids (a : archetype) (i id : Nat) (c : List Nat) : (a.Set i id c).Ids = a.Ids := by
  unfold archetype.Set
  split
  · rfl
  · split <;> rfl

theorem set_cap (a : archetype) (i id : Nat) (c : List Nat) : (a.Set i id c).cap = a.cap := by
  unfold archetype.Set
  split
  · rfl
  · split <;> rfl

/- ### Lemmas: the step functions touch only their own slot -/

theorem extendStep_length (a : archetype) (newCap : Nat) (bs : List (List Nat)) (id : Nat) :
    (a.extendStep newCap bs id).length = bs.length := by
  unfold archetype.extendStep
  split
  · rfl
  · simp [List.length_set]

theorem extendStep_getD_ne (a : archetype) (newCap : Nat) (bs : List (List Nat)) (id k : Nat)
    (hj : a.indices.getD id 0 ≠ k) :
    (a.extendStep newCap bs id).getD k [] = bs.getD k [] := by
  unfold archetype.extendStep
  split
  · rfl
  · exact getD_set_ne _ _ _ _ _ hj

theorem extendStep_getD_zero (a : archetype) (newCap : Nat) (bs : List (List Nat)) (id k : Nat)
    (hsz : (a.getStorage id).itemSize = 0) :
    (a.extendStep newCap bs id).getD k [] = bs.getD k [] := by
  unfold archetype.extendStep
  rw [if_pos hsz]

theorem zeroStep_length (a : archetype) (i : Nat) (bs : List (List Nat)) (id : Nat) :
    (a.zeroStep i bs id).length = bs.length := by
  unfold archetype.zeroStep
  split
  · rfl
  · split
    · rfl
    · simp [List.length_set]

theorem zeroStep_getD_ne (a : archetype) (i : Nat) (bs : List (List Nat)) (id k j : Nat)
    (hp : (a.getStorage id).pointer = some (j, 0)) (hne : j ≠ k) :
    (a.zeroStep i bs id).getD k [] = bs.getD k [] := by
  unfold archetype.zeroStep
  split
  · rfl
  · split
    · rfl
    · rename_i p heq
      rw [hp] at heq
      have hpj : (j, 0) = p := Option.some.inj heq
      rw [← hpj]
      exact getD_set_ne _ _ _ _ _ hne

theorem zeroStep_getD_zero (a : archetype) (i : Nat) (bs : List (List Nat)) (id k : Nat)
    (hsz : (a.getStorage id).itemSize = 0) :
    (a.zeroStep i bs id).getD k [] = bs.getD k [] := by
  unfold archetype.zeroStep
  rw [if_pos hsz]

theorem removeStep_length (a : archetype) (i o : Nat) (bs : List (List Nat)) (id : Nat) :
    (a.removeStep i o bs id).length = bs.length := by
  unfold archetype.removeStep
  split
  · rfl
  · split
    · rfl
    · simp [List.length_set]

theorem removeStep_getD_ne (a : archetype) (i o : Nat) (bs : List (List Nat)) (id k j : Nat)
    (hp : (a.getStorage id).pointer = some (j, 0)) (hne : j ≠ k) :
    (a.removeStep i o bs id).getD k [] = bs.getD k [] := by
  unfold archetype.removeStep
  split
  · rfl
  · split
    · rfl
    · rename_i p heq
      rw [hp] at heq
      have hpj : (j, 0) = p := Option.some.inj heq
      rw [← hpj]
      exact getD_set_ne _ _ _ _ _ hne

theorem removeStep_getD_zero (a : archetype) (i o : Nat) (bs : List (List Nat)) (id k : Nat)
    (hsz : (a.getStorage id).itemSize = 0) :
    (a.removeStep i o bs id).getD k [] = bs.getD k [] := by
  unfold archetype.removeStep
  rw [if_pos (Or.inr hsz)]

theorem removeStep_getD_same (a : archetype) (i : Nat) (bs : List (List Nat)) (id k : Nat)
    (heq : i = (a.len + (U32MOD - 1)) % U32MOD) :
    (a.removeStep i ((a.len + (U32MOD - 1)) % U32MOD) bs id).getD k [] = bs.getD k [] := by
  unfold archetype.removeStep
  rw [if_pos (Or.inl heq)]

/- ### Lemmas: projections of the well-formedness invariant -/

theorem WF_sorted (a : archetype) (h : a.WF) : List.Pairwise (· < ·) a.Ids := h.1

theorem WF_ids_lt (a : archetype) (h : a.WF) : ∀ id ∈ a.Ids, id < MaskTotalBits := h.2.1

theorem WF_layouts_length (a : archetype) (h : a.WF) : a.layouts.length = MaskTotalBits :=
  h.2.2.1

theorem WF_buffers_length (a : archetype) (h : a.WF) : a.buffers.length = a.Ids.length :=
  h.2.2.2.1

theorem WF_entities_length (a : archetype) (h : a.WF) : a.entities.items.length = a.len :=
  h.2.2.2.2.1

theorem WF_len_le_cap (a : archetype) (h : a.WF) : a.len ≤ a.cap := h.2.2.2.2.2.1

theorem WF_cap_lt (a : archetype) (h : a.WF) : a.cap < U32MOD := h.2.2.2.2.2.2.1

theorem WF_inc_pos (a : archetype) (h : a.WF) : 0 < a.capacityIncrement :=
  h.2.2.2.2.2.2.2.1

theorem WF_pos (a : archetype) (h : a.WF) (k : Nat) (hk : k < a.Ids.length) :
    a.indices.getD (a.Ids.getD k 0) 0 = k ∧
    (a.getStorage (a.Ids.getD k 0)).pointer = some (k, 0) ∧
    (a.buffers.getD k []).length = a.cap * (a.getStorage (a.Ids.getD k 0)).itemSize :=
  h.2.2.2.2.2.2.2.2.1 k hk

theorem WF_absent (a : archetype) (h : a.WF) :
    ∀ id, id < MaskTotalBits → id ∉ a.Ids → a.getStorage id = ⟨none, 0⟩ :=
  h.2.2.2.2.2.2.2.2.2

/- ### Lemmas: reading one slot of an operation's fold -/

theorem pos_of_mem_take (a : archetype) (hcore : a.WFcore) (k id' : Nat)
    (hmem : id' ∈ a.Ids.take k) :
    ∃ j, j ≠ k ∧ j < a.Ids.length ∧ a.indices.getD id' 0 = j ∧
      (a.getStorage id').pointer = some (j, 0) := by
  obtain ⟨j, hjk, hjlen, hjval⟩ := mem_take_getD a.Ids k id' hmem
  have h := hcore.2 j hjlen
  rw [hjval] at h
  exact ⟨j, by omega, hjlen, h.1, h.2.1⟩

theorem pos_of_mem_drop (a : archetype) (hcore : a.WFcore) (k id' : Nat)
    (hmem : id' ∈ a.Ids.drop (k + 1)) :
    ∃ j, j ≠ k ∧ j < a.Ids.length ∧ a.indices.getD id' 0 = j ∧
      (a.getStorage id').pointer = some (j, 0) := by
  obtain ⟨j, hjk, hjlen, hjval⟩ := mem_drop_getD a.Ids (k + 1) id' hmem
  have h := hcore.2 j hjlen
  rw [hjval] at h
  exact ⟨j, by omega, hjlen, h.1, h.2.1⟩

theorem extendStep_getD_self (a : archetype) (newCap : Nat) (bs : List (List Nat)) (id k : Nat)
    (hsz : ¬ (a.getStorage id).itemSize = 0) (hidx : a.indices.getD id 0 = k)
    (hk : k < bs.length) :
    (a.extendStep newCap bs id).getD k [] =
      writeBytes (List.replicate (newCap * (a.getStorage id).itemSize) 0) 0 (bs.getD k []) := by
  unfold archetype.extendStep
  rw [if_neg hsz, hidx]
  exact getD_set_self _ _ _ _ hk

theorem zeroStep_getD_self (a : archetype) (i : Nat) (bs : List (List Nat)) (id k : Nat)
    (hsz : ¬ (a.getStorage id).itemSize = 0) (hp : (a.getStorage id).pointer = some (k, 0))
    (hk : k < bs.length) :
    (a.zeroStep i bs id).getD k [] =
      writeBytes (bs.getD k []) (0 + i * (a.getStorage id).itemSize)
        (List.replicate (a.getStorage id).itemSize 0) := by
  unfold archetype.zeroStep
  rw [if_neg hsz]
  split
  · rename_i heq
    rw [hp] at heq
    cases heq
  · rename_i p heq
    rw [hp] at heq
    have hpk : (k, 0) = p := Option.some.inj heq
    rw [← hpk]
    exact getD_set_self _ _ _ _ hk

theorem removeStep_getD_self (a : archetype) (i o : Nat) (bs : List (List Nat)) (id k : Nat)
    (hio : ¬ (i = o ∨ (a.getStorage id).itemSize = 0))
    (hp : (a.getStorage id).pointer = some (k, 0)) (hk : k < bs.length) :
    (a.removeStep i o bs id).getD k [] =
      writeBytes (bs.getD k []) (0 + i * (a.getStorage id).itemSize)
        (readBytes (bs.getD k []) (0 + o * (a.getStorage id).itemSize)
          (a.getStorage id).itemSize) := by
  unfold archetype.removeStep
  rw [if_neg hio]
  split
  · rename_i heq
    rw [hp] at heq
    cases heq
  · rename_i p heq
    rw [hp] at heq
    have hpk : (k, 0) = p := Option.some.inj heq
    rw [← hpk]
    exact getD_set_self _ _ _ _ hk

theorem extend_fold_getD (a : archetype) (hcore : a.WFcore) (newCap k : Nat)
    (hk : k < a.Ids.length)
    (hsz : ¬ (a.getStorage (a.Ids.getD k 0)).itemSize = 0) :
    (a.Ids.foldl (a.extendStep newCap) a.buffers).getD k [] =
      writeBytes (List.replicate (newCap * (a.getStorage (a.Ids.getD k 0)).itemSize) 0) 0
        (a.buffers.getD k []) := by
  have hblen := hcore.1
  have hidxk := (hcore.2 k hk).1
  have hkb : k < a.buffers.length := by rw [hblen]; exact hk
  have step1 : ∀ id' ∈ a.Ids.take k, ∀ bs,
      (a.extendStep newCap bs id').getD k [] = bs.getD k [] := by
    intro id' hmem bs
    obtain ⟨j, hjne, _, hji, _⟩ := pos_of_mem_take a hcore k id' hmem
    exact extendStep_getD_ne a newCap bs id' k (by rw [hji]; exact hjne)
  have step2 : ∀ id' ∈ a.Ids.drop (k + 1), ∀ bs,
      (a.extendStep newCap bs id').getD k [] = bs.getD k [] := by
    intro id' hmem bs
    obtain ⟨j, hjne, _, hji, _⟩ := pos_of_mem_drop a hcore k id' hmem
    exact extendStep_getD_ne a newCap bs id' k (by rw [hji]; exact hjne)
  have hstep : ∀ bs, bs.length = a.buffers.length → bs.getD k [] = a.buffers.getD k [] →
      (a.extendStep newCap bs (a.Ids.getD k 0)).getD k [] =
        (a.extendStep newCap a.buffers (a.Ids.getD k 0)).getD k [] := by
    intro bs hbl hbg
    rw [extendStep_getD_self a newCap bs _ k hsz hidxk (by rw [hbl]; exact hkb),
      extendStep_getD_self a newCap a.buffers _ k hsz hidxk hkb, hbg]
  have hfold := foldl_getD_single (a.extendStep newCap) (a.Ids.take k) (a.Ids.drop (k + 1))
    (a.Ids.getD k 0) a.buffers k
    (fun id _ bs => extendStep_length a newCap bs id) step1 step2 hstep
  rw [← split_at_getD a.Ids k hk] at hfold
  rw [hfold]
  exact extendStep_getD_self a newCap a.buffers _ k hsz hidxk hkb

theorem extend_fold_getD_zero (a : archetype) (hcore : a.WFcore) (newCap k : Nat)
    (hk : k < a.Ids.length)
    (hsz : (a.getStorage (a.Ids.getD k 0)).itemSize = 0) :
    (a.Ids.foldl (a.extendStep newCap) a.buffers).getD k [] = a.buffers.getD k [] := by
  apply foldl_getD_frame
  intro id' hmem bs
  obtain ⟨j, hjlen, hjval⟩ := mem_getD a.Ids id' hmem
  by_cases hjk : j = k
  · subst hjk
    apply extendStep_getD_zero
    rw [← hjval]
    exact hsz
  · have hji := (hcore.2 j hjlen).1
    rw [hjval] at hji
    exact extendStep_getD_ne a newCap bs id' k (by rw [hji]; exact hjk)

theorem zeroAll_fold_getD (a : archetype) (hcore : a.WFcore) (i k : Nat)
    (hk : k < a.Ids.length)
    (hsz : ¬ (a.getStorage (a.Ids.getD k 0)).itemSize = 0) :
    (a.Ids.foldl (a.zeroStep i) a.buffers).getD k [] =
      writeBytes (a.buffers.getD k []) (0 + i * (a.getStorage (a.Ids.getD k 0)).itemSize)
        (List.replicate (a.getStorage (a.Ids.getD k 0)).itemSize 0) := by
  have hblen := hcore.1
  have hpk := (hcore.2 k hk).2.1
  have hkb : k < a.buffers.length := by rw [hblen]; exact hk
  have step1 : ∀ id' ∈ a.Ids.take k, ∀ bs,
      (a.zeroStep i bs id').getD k [] = bs.getD k [] := by
    intro id' hmem bs
    obtain ⟨j, hjne, _, _, hjp⟩ := pos_of_mem_take a hcore k id' hmem
    exact zeroStep_getD_ne a i bs id' k j hjp hjne
  have step2 : ∀ id' ∈ a.Ids.drop (k + 1), ∀ bs,
      (a.zeroStep i bs id').getD k [] = bs.getD k [] := by
    intro id' hmem bs
    obtain ⟨j, hjne, _, _, hjp⟩ := pos_of_mem_drop a hcore k id' hmem
    exact zeroStep_getD_ne a i bs id' k j hjp hjne
  have hstep : ∀ bs, bs.length = a.buffers.length → bs.getD k [] = a.buffers.getD k [] →
      (a.zeroStep i bs (a.Ids.getD k 0)).getD k [] =
        (a.zeroStep i a.buffers (a.Ids.getD k 0)).getD k [] := by
    intro bs hbl hbg
    rw [zeroStep_getD_self a i bs _ k hsz hpk (by rw [hbl]; exact hkb),
      zeroStep_getD_self a i a.buffers _ k hsz hpk hkb, hbg]
  have hfold := foldl_getD_single (a.zeroStep i) (a.Ids.take k) (a.Ids.drop (k + 1))
    (a.Ids.getD k 0) a.buffers k
    (fun id _ bs => zeroStep_length a i bs id) step1 step2 hstep
  rw [← split_at_getD a.Ids k hk] at hfold
  rw [hfold]
  exact zeroStep_getD_self a i a.buffers _ k hsz hpk hkb

theorem zeroAll_fold_getD_zero (a : archetype) (hcore : a.WFcore) (i k : Nat)
    (hk : k < a.Ids.length)
    (hsz : (a.getStorage (a.Ids.getD k 0)).itemSize = 0) :
    (a.Ids.foldl (a.zeroStep i) a.buffers).getD k [] = a.buffers.getD k [] := by
  apply foldl_getD_frame
  intro id' hmem bs
  obtain ⟨j, hjlen, hjval⟩ := mem_getD a.Ids id' hmem
  by_cases hjk : j = k
  · subst hjk
    apply zeroStep_getD_zero
    rw [← hjval]
    exact hsz
  · have hjp := (hcore.2 j hjlen).2.1
    rw [hjval] at hjp
    exact zeroStep_getD_ne a i bs id' k j hjp hjk

theorem remove_fold_getD (a : archetype) (hcore : a.WFcore) (i o k : Nat)
    (hk : k < a.Ids.length)
    (hio : ¬ (i = o ∨ (a.getStorage (a.Ids.getD k 0)).itemSize = 0)) :
    (a.Ids.foldl (a.removeStep i o) a.buffers).getD k [] =
      writeBytes (a.buffers.getD k []) (0 + i * (a.getStorage (a.Ids.getD k 0)).itemSize)
        (readBytes (a.buffers.getD k []) (0 + o * (a.getStorage (a.Ids.getD k 0)).itemSize)
          (a.getStorage (a.Ids.getD k 0)).itemSize) := by
  have hblen := hcore.1
  have hpk := (hcore.2 k hk).2.1
  have hkb : k < a.buffers.length := by rw [hblen]; exact hk
  have step1 : ∀ id' ∈ a.Ids.take k, ∀ bs,
      (a.removeStep i o bs id').getD k [] = bs.getD k [] := by
    intro id' hmem bs
    obtain ⟨j, hjne, _, _, hjp⟩ := pos_of_mem_take a hcore k id' hmem
    exact removeStep_getD_ne a i o bs id' k j hjp hjne
  have step2 : ∀ id' ∈ a.Ids.drop (k + 1), ∀ bs,
      (a.removeStep i o bs id').getD k [] = bs.getD k [] := by
    intro id' hmem bs
    obtain ⟨j, hjne, _, _, hjp⟩ := pos_of_mem_drop a hcore k id' hmem
    exact removeStep_getD_ne a i o bs id' k j hjp hjne
  have hstep : ∀ bs, bs.length = a.buffers.length → bs.getD k [] = a.buffers.getD k [] →
      (a.removeStep i o bs (a.Ids.getD k 0)).getD k [] =
        (a.removeStep i o a.buffers (a.Ids.getD k 0)).getD k [] := by
    intro bs hbl hbg
    rw [removeStep_getD_self a i o bs _ k hio hpk (by rw [hbl]; exact hkb),
      removeStep_getD_self a i o a.buffers _ k hio hpk hkb, hbg]
  have hfold := foldl_getD_single (a.removeStep i o) (a.Ids.take k) (a.Ids.drop (k + 1))
    (a.Ids.getD k 0) a.buffers k
    (fun id _ bs => removeStep_length a i o bs id) step1 step2 hstep
  rw [← split_at_getD a.Ids k hk] at hfold
  rw [hfold]
  exact removeStep_getD_self a i o a.buffers _ k hio hpk hkb

theorem extend_fold_length (a : archetype) (newCap : Nat) :
    (a.Ids.foldl (a.extendStep newCap) a.buffers).length = a.buffers.length :=
  foldl_length_frame _ _ _ (fun id _ bs => extendStep_length a newCap bs id)

theorem zeroAll_fold_length (a : archetype) (i : Nat) :
    (a.Ids.foldl (a.zeroStep i) a.buffers).length = a.buffers.length :=
  foldl_length_frame _ _ _ (fun id _ bs => zeroStep_length a i bs id)

theorem remove_fold_length (a : archetype) (i o : Nat) :
    (a.Ids.foldl (a.removeStep i o) a.buffers).length = a.buffers.length :=
  foldl_length_frame _ _ _ (fun id _ bs => removeStep_length a i o bs id)

/- ### Lemmas: reading and writing one component value -/

theorem accessGet_eq (a : archetype) (id k i : Nat)
    (hp : (a.getStorage id).pointer = some (k, 0)) :
    a.accessGet i id = some (k, 0 + (a.getStorage id).itemSize * i) := by
  unfold archetype.accessGet layout.Get
  rw [hp]

theorem getBytes_eq (a : archetype) (id k i : Nat)
    (hp : (a.getStorage id).pointer = some (k, 0)) :
    a.getBytes i id =
      readBytes (a.buffers.getD k []) ((a.getStorage id).itemSize * i)
        (a.getStorage id).itemSize := by
  unfold archetype.getBytes
  rw [accessGet_eq a id k i hp]
  dsimp only
  rw [Nat.zero_add]

theorem set_buffers_eq (a : archetype) (row id k : Nat) (c : List Nat)
    (hsz : ¬ (a.getStorage id).itemSize = 0)
    (hp : (a.getStorage id).pointer = some (k, 0)) :
    (a.Set row id c).buffers =
      a.buffers.set k
        (writeBytes (a.buffers.getD k []) ((a.getStorage id).itemSize * row)
          (readBytes c 0 (a.getStorage id).itemSize)) := by
  unfold archetype.Set
  rw [if_neg hsz, accessGet_eq a id k row hp]
  dsimp only
  rw [Nat.zero_add]

/- ### Lemmas: the `Init` table fills -/

theorem getD_replicate {α : Type} (n i : Nat) (x d : α) (h : i < n) :
    (List.replicate n x).getD i d = x := by
  rw [getD_eq_getElem _ i (by simpa using h), List.getElem_replicate]

theorem scatter_length {α : Type} (f : Nat → componentType → α) :
    ∀ (cs : List componentType) (i : Nat) (ls : List α),
      (scatter f cs i ls).length = ls.length := by
  intro cs
  induction cs with
  | nil => intro i ls; rfl
  | cons c cs' ih =>
    intro i ls
    rw [scatter, ih, List.length_set]

theorem scatter_getD_notmem {α : Type} (f : Nat → componentType → α) (d : α) :
    ∀ (cs : List componentType) (i : Nat) (ls : List α) (id : Nat),
      id ∉ cs.map (fun c => c.id) →
      (scatter f cs i ls).getD id d = ls.getD id d := by
  intro cs
  induction cs with
  | nil => intro i ls id _; rfl
  | cons c cs' ih =>
    intro i ls id hmem
    rw [List.map_cons] at hmem
    have h1 : id ∉ cs'.map (fun c => c.id) := fun h => hmem (List.mem_cons_of_mem _ h)
    have h2 : c.id ≠ id := fun h => hmem (h ▸ List.mem_cons_self _ _)
    rw [scatter, ih (i + 1) _ id h1, getD_set_ne ls c.id id _ d h2]

theorem scatter_getD_mem {α : Type} (f : Nat → componentType → α) (d : α) :
    ∀ (cs : List componentType) (i : Nat) (ls : List α) (k : Nat) (hk : k < cs.length),
      (cs.map (fun c => c.id)).Nodup →
      (∀ c ∈ cs, c.id < ls.length) →
      (scatter f cs i ls).getD (cs.get ⟨k, hk⟩).id d = f (i + k) (cs.get ⟨k, hk⟩) := by
  intro cs
  induction cs with
  | nil =>
    intro i ls k hk
    exact absurd hk (Nat.not_lt_zero k)
  | cons c cs' ih =>
    intro i ls k hk hnodup hbound
    rw [List.map_cons, List.nodup_cons] at hnodup
    match k with
    | 0 =>
      show (scatter f cs' (i + 1) (ls.set c.id (f i c))).getD c.id d = f (i + 0) c
      rw [scatter_getD_notmem f d cs' (i + 1) _ _ hnodup.1]
      rw [getD_set_self ls c.id (f i c) d (hbound c (List.mem_cons_self c cs'))]
      rw [Nat.add_zero]
    | k' + 1 =>
      rw [scatter]
      have hk' : k' < cs'.length := by simpa using hk
      have hb : ∀ c' ∈ cs', c'.id < (ls.set c.id (f i c)).length := by
        intro c' hc'
        rw [List.length_set]
        exact hbound c' (List.mem_cons_of_mem c hc')
      have := ih (i + 1) (ls.set c.id (f i c)) k' hk' hnodup.2 hb
      have harith : i + 1 + k' = i + (k' + 1) := by omega
      rw [harith] at this
      exact this

/- ### Lemmas: the sortedness check of `Init` -/

theorem sortedCheck_lt :
    ∀ (cs : List componentType) (p : Int), sortedCheck cs p = true →
      ∀ x : Nat, x ∈ cs.map (fun c => c.id) → p < (x : Int) := by
  intro cs
  induction cs with
  | nil =>
    intro p _ x hx
    simp at hx
  | cons c cs' ih =>
    intro p hchk x hx
    rw [sortedCheck] at hchk
    by_cases hc : (c.id : Int) ≤ p
    · rw [if_pos hc] at hchk
      cases hchk
    · rw [if_neg hc] at hchk
      push_neg at hc
      rw [List.map_cons] at hx
      rcases List.mem_cons.mp hx with h | h
      · subst h
        exact hc
      · exact lt_trans hc (ih (c.id : Int) hchk x h)

theorem sortedCheck_pairwise :
    ∀ (cs : List componentType) (p : Int), sortedCheck cs p = true →
      List.Pairwise (· < ·) (cs.map (fun c => c.id)) := by
  intro cs
  induction cs with
  | nil => intro p _; exact List.Pairwise.nil
  | cons c cs' ih =>
    intro p hchk
    rw [sortedCheck] at hchk
    by_cases hc : (c.id : Int) ≤ p
    · rw [if_pos hc] at hchk
      cases hchk
    · rw [if_neg hc] at hchk
      rw [List.map_cons]
      refine List.Pairwise.cons ?_ (ih (c.id : Int) hchk)
      intro x hx
      have h := sortedCheck_lt cs' (c.id : Int) hchk x hx
      exact_mod_cast h

/- ### Lemmas: eliminating a successful `Init` -/

theorem Init_elim (inc : Nat) (fs : Bool) (comps : List componentType) (a : archetype)
    (h : archetype.Init inc fs comps = some a) :
    sortedCheck comps (-1) = true ∧
    (∀ c ∈ comps, c.id < MaskTotalBits) ∧
    a.Ids = comps.map (fun c => c.id) ∧
    a.buffers = comps.map (fun c =>
      List.replicate ((if fs then inc else 1) * roundUp c.size c.align) 0) ∧
    a.layouts = scatter (fun i c => ⟨some (i, 0), roundUp c.size c.align⟩) comps 0
      (List.replicate MaskTotalBits ⟨none, 0⟩) ∧
    a.indices = scatter (fun i _ => i) comps 0 (List.replicate MaskTotalBits 0) ∧
    a.mask = scatter (fun _ _ => true) comps 0 (List.replicate MaskTotalBits false) ∧
    a.entities = ⟨[]⟩ ∧ a.len = 0 ∧ a.cap = (if fs then inc else 1) ∧
    a.capacityIncrement = inc := by
  unfold archetype.Init at h
  split at h
  · rename_i hcond
    dsimp only at h
    have ha := Option.some.inj h
    subst ha
    refine ⟨hcond.1, ?_, rfl, rfl, rfl, rfl, rfl, rfl, rfl, rfl, rfl⟩
    intro c hc
    have hall := List.all_eq_true.mp hcond.2 c hc
    exact of_decide_eq_true hall
  · cases h

theorem pairwise_lt_nodup (l : List Nat) (h : List.Pairwise (· < ·) l) : l.Nodup :=
  h.imp (fun hlt => Nat.ne_of_lt hlt)

theorem getD_map_comp (comps : List componentType) (k : Nat) (hk : k < comps.length) :
    (comps.map (fun c => c.id)).getD k 0 = (comps.get ⟨k, hk⟩).id := by
  rw [getD_eq_getElem _ k (by simpa using hk)]
  simp [List.getElem_map]

theorem getD_map_buffer (comps : List componentType) (cp k : Nat) (hk : k < comps.length) :
    (comps.map (fun c => List.replicate (cp * roundUp c.size c.align) 0)).getD k [] =
      List.replicate (cp * roundUp (comps.get ⟨k, hk⟩).size (comps.get ⟨k, hk⟩).align) 0 := by
  rw [getD_eq_getElem _ k (by simpa using hk)]
  simp [List.getElem_map]

theorem Init_getStorage_mem (inc : Nat) (fs : Bool) (comps : List componentType)
    (a : archetype) (h : archetype.Init inc fs comps = some a) (k : Nat)
    (hk : k < comps.length) :
    a.getStorage (comps.get ⟨k, hk⟩).id =
      ⟨some (k, 0), roundUp (comps.get ⟨k, hk⟩).size (comps.get ⟨k, hk⟩).align⟩ := by
  obtain ⟨hsort, hlt, _, _, hlay, _, _, _, _, _, _⟩ := Init_elim inc fs comps a h
  unfold archetype.getStorage
  rw [hlay]
  have hnodup : (comps.map (fun c => c.id)).Nodup :=
    pairwise_lt_nodup _ (sortedCheck_pairwise comps (-1) hsort)
  have hbound : ∀ c ∈ comps, c.id < (List.replicate MaskTotalBits (⟨none, 0⟩ : layout)).length := by
    intro c hc
    rw [List.length_replicate]
    exact hlt c hc
  have hres := scatter_getD_mem (fun i c => (⟨some (i, 0), roundUp c.size c.align⟩ : layout))
    ⟨none, 0⟩ comps 0 _ k hk hnodup hbound
  rw [Nat.zero_add] at hres
  exact hres

theorem Init_indices_mem (inc : Nat) (fs : Bool) (comps : List componentType)
    (a : archetype) (h : archetype.Init inc fs comps = some a) (k : Nat)
    (hk : k < comps.length) :
    a.indices.getD (comps.get ⟨k, hk⟩).id 0 = k := by
  obtain ⟨hsort, hlt, _, _, _, hidc, _, _, _, _, _⟩ := Init_elim inc fs comps a h
  rw [hidc]
  have hnodup : (comps.map (fun c => c.id)).Nodup :=
    pairwise_lt_nodup _ (sortedCheck_pairwise comps (-1) hsort)
  have hbound : ∀ c ∈ comps, c.id < (List.replicate MaskTotalBits (0 : Nat)).length := by
    intro c hc
    rw [List.length_replicate]
    exact hlt c hc
  have hres := scatter_getD_mem (fun i _ => i) 0 comps 0 _ k hk hnodup hbound
  rw [Nat.zero_add] at hres
  exact hres

theorem Init_mask_mem (inc : Nat) (fs : Bool) (comps : List componentType)
    (a : archetype) (h : archetype.Init inc fs comps = some a) (k : Nat)
    (hk : k < comps.length) :
    a.mask.getD (comps.get ⟨k, hk⟩).id false = true := by
  obtain ⟨hsort, hlt, _, _, _, _, hmask, _, _, _, _⟩ := Init_elim inc fs comps a h
  rw [hmask]
  have hnodup : (comps.map (fun c => c.id)).Nodup :=
    pairwise_lt_nodup _ (sortedCheck_pairwise comps (-1) hsort)
  have hbound : ∀ c ∈ comps, c.id < (List.replicate MaskTotalBits false).length := by
    intro c hc
    rw [List.length_replicate]
    exact hlt c hc
  exact scatter_getD_mem (fun _ _ => true) false comps 0 _ k hk hnodup hbound

theorem Init_getStorage_notmem (inc : Nat) (fs : Bool) (comps : List componentType)
    (a : archetype) (h : archetype.Init inc fs comps = some a) (id : Nat)
    (hid : id < MaskTotalBits) (hm : id ∉ comps.map (fun c => c.id)) :
    a.getStorage id = ⟨none, 0⟩ := by
  obtain ⟨_, _, _, _, hlay, _, _, _, _, _, _⟩ := Init_elim inc fs comps a h
  unfold archetype.getStorage
  rw [hlay, scatter_getD_notmem _ _ comps 0 _ id hm]
  exact getD_replicate MaskTotalBits id _ _ hid

theorem Init_WF (inc : Nat) (fs : Bool) (comps : List componentType) (a : archetype)
    (h : archetype.Init inc fs comps = some a) (hinc : 0 < inc) (hcap : inc < U32MOD) :
    a.WF := by
  obtain ⟨hsort, hlt, hIds, hbuf, hlay, hidc, hmask, hent, hlen, hcapv, hincv⟩ :=
    Init_elim inc fs comps a h
  have hpair : List.Pairwise (· < ·) a.Ids := by
    rw [hIds]
    exact sortedCheck_pairwise comps (-1) hsort
  refine ⟨hpair, ?_, ?_, ?_, ?_, ?_, ?_, ?_, ?_, ?_⟩
  · intro id hid
    rw [hIds] at hid
    obtain ⟨c, hc, rfl⟩ := List.mem_map.mp hid
    exact hlt c hc
  · rw [hlay, scatter_length, List.length_replicate]
  · rw [hbuf, hIds, List.length_map, List.length_map]
  · rw [hent, hlen]
    rfl
  · rw [hlen]
    exact Nat.zero_le _
  · rw [hcapv]
    by_cases hfs : fs = true
    · rw [if_pos hfs]
      exact hcap
    · rw [if_neg hfs]
      decide
  · rw [hincv]
    exact hinc
  · intro k hk
    have hk' : k < comps.length := by
      rw [hIds, List.length_map] at hk
      exact hk
    have hid : a.Ids.getD k 0 = (comps.get ⟨k, hk'⟩).id := by
      rw [hIds]
      exact getD_map_comp comps k hk'
    refine ⟨?_, ?_, ?_⟩
    · rw [hid]
      exact Init_indices_mem inc fs comps a h k hk'
    · rw [hid, Init_getStorage_mem inc fs comps a h k hk']
    · rw [hid, Init_getStorage_mem inc fs comps a h k hk', hbuf,
        getD_map_buffer comps (if fs then inc else 1) k hk', List.length_replicate, hcapv]
  · intro id hid hm
    rw [hIds] at hm
    exact Init_getStorage_notmem inc fs comps a h id hid hm

theorem Init_WFcore (inc : Nat) (fs : Bool) (comps : List componentType) (a : archetype)
    (h : archetype.Init inc fs comps = some a) : a.WFcore := by
  obtain ⟨_, _, hIds, hbuf, _, _, _, _, _, hcapv, _⟩ := Init_elim inc fs comps a h
  constructor
  · rw [hbuf, hIds, List.length_map, List.length_map]
  · intro k hk
    have hk' : k < comps.length := by
      rw [hIds, List.length_map] at hk
      exact hk
    have hid : a.Ids.getD k 0 = (comps.get ⟨k, hk'⟩).id := by
      rw [hIds]
      exact getD_map_comp comps k hk'
    refine ⟨?_, ?_, ?_⟩
    · rw [hid]
      exact Init_indices_mem inc fs comps a h k hk'
    · rw [hid, Init_getStorage_mem inc fs comps a h k hk']
    · rw [hid, Init_getStorage_mem inc fs comps a h k hk', hbuf,
        getD_map_buffer comps (if fs then inc else 1) k hk', List.length_replicate, hcapv]

theorem WF_to_core (a : archetype) (h : a.WF) : a.WFcore :=
  ⟨WF_buffers_length a h, fun k hk => WF_pos a h k hk⟩

theorem entities_set_WFcore (a : archetype) (es : entityStorage) (hcore : a.WFcore) :
    ({ a with entities := es } : archetype).WFcore := hcore

theorem extend_WFcore (a : archetype) (hcore : a.WFcore) : (a.extend).WFcore := by
  by_cases h : a.len < a.cap
  · rw [extend_of_lt a h]
    exact hcore
  · have hbufs := extend_buffers_grow a h
    have hcapg := extend_cap_grow a h
    constructor
    · rw [hbufs, extend_Ids, extend_fold_length, hcore.1]
    · intro k hk
      rw [extend_Ids] at hk
      refine ⟨?_, ?_, ?_⟩
      · rw [extend_Ids, extend_indices]
        exact (hcore.2 k hk).1
      · rw [extend_Ids, extend_getStorage]
        exact (hcore.2 k hk).2.1
      · rw [extend_Ids, extend_getStorage, hbufs, hcapg]
        by_cases hsz : (a.getStorage (a.Ids.getD k 0)).itemSize = 0
        · rw [extend_fold_getD_zero a hcore _ k hk hsz, hsz, Nat.mul_zero]
          have hl := (hcore.2 k hk).2.2
          rw [hsz, Nat.mul_zero] at hl
          exact hl
        · rw [extend_fold_getD a hcore _ k hk hsz, writeBytes_length, List.length_replicate]

theorem zeroAll_WFcore (a : archetype) (hcore : a.WFcore) (i : Nat) :
    (a.ZeroAll i).WFcore := by
  constructor
  · show (a.Ids.foldl (a.zeroStep i) a.buffers).length = a.Ids.length
    rw [zeroAll_fold_length, hcore.1]
  · intro k hk
    have hk' : k < a.Ids.length := hk
    refine ⟨(hcore.2 k hk').1, (hcore.2 k hk').2.1, ?_⟩
    show ((a.Ids.foldl (a.zeroStep i) a.buffers).getD k []).length =
      a.cap * (a.getStorage (a.Ids.getD k 0)).itemSize
    by_cases hsz : (a.getStorage (a.Ids.getD k 0)).itemSize = 0
    · rw [zeroAll_fold_getD_zero a hcore i k hk' hsz]
      exact (hcore.2 k hk').2.2
    · rw [zeroAll_fold_getD a hcore i k hk' hsz, writeBytes_length]
      exact (hcore.2 k hk').2.2

/- ### Lemmas: uint32 decrement, size rounding, offset bounds -/

theorem u32_pred (n : Nat) (h0 : 0 < n) (h : n < U32MOD) :
    (n + (U32MOD - 1)) % U32MOD = n - 1 := by
  have hU : U32MOD = 4294967296 := rfl
  rw [hU] at h ⊢
  have h1 : n + (4294967296 - 1) = (n - 1) + 4294967296 := by omega
  rw [h1, Nat.add_mod_right]
  exact Nat.mod_eq_of_lt (by omega)

theorem roundUp_ge (s al : Nat) (h : 0 < al) : s ≤ roundUp s al := by
  unfold roundUp
  have hmod := Nat.div_add_mod (s + (al - 1)) al
  have hlt := Nat.mod_lt (s + (al - 1)) h
  rw [Nat.mul_comm]
  omega

theorem roundUp_dvd (s al : Nat) : al ∣ roundUp s al :=
  ⟨(s + (al - 1)) / al, Nat.mul_comm _ _⟩

theorem roundUp_min (s al m : Nat) (h : 0 < al) (hdvd : al ∣ m) (hs : s ≤ m) :
    roundUp s al ≤ m := by
  obtain ⟨t, rfl⟩ := hdvd
  unfold roundUp
  have hq : (s + (al - 1)) / al ≤ t := by
    rw [Nat.div_le_iff_le_mul_add_pred h]
    have : s ≤ al * t := hs
    omega
  calc (s + (al - 1)) / al * al ≤ t * al := Nat.mul_le_mul_right al hq
    _ = al * t := Nat.mul_comm t al

theorem off_bound (row cap sz : Nat) (h : row < cap) : sz * row + sz ≤ cap * sz := by
  have h1 : sz * (row + 1) ≤ sz * cap := Nat.mul_le_mul_left sz h
  calc sz * row + sz = sz * (row + 1) := by ring
    _ ≤ sz * cap := h1
    _ = cap * sz := Nat.mul_comm _ _

theorem readBytes_writeBytes_disjoint (buf src : List Nat) (o1 o2 n : Nat)
    (h : o1 + n ≤ o2 ∨ o2 + src.length ≤ o1) :
    readBytes (writeBytes buf o2 src) o1 n = readBytes buf o1 n := by
  apply readBytes_congr
  intro t ht
  rcases h with h | h
  · exact getD_writeBytes_lt src buf o2 (o1 + t) (by omega)
  · exact getD_writeBytes_ge src buf o2 (o1 + t) (by omega)

theorem getD_take {α : Type} (l : List α) (n i : Nat) (d : α) (h : i < n) :
    (l.take n).getD i d = l.getD i d := by
  by_cases hl : i < l.length
  · have ht : i < (l.take n).length := by
      rw [List.length_take]
      omega
    rw [getD_eq_getElem _ i hl, getD_eq_getElem (l.take n) i ht]
    exact List.getElem_take l
  · have h1 : l.length ≤ i := Nat.le_of_not_lt hl
    have h2 : (l.take n).length ≤ i := by
      rw [List.length_take]
      omega
    rw [List.getD_eq_default _ _ h1, List.getD_eq_default _ _ h2]

/- ### Lemmas: the entities column swap-remove -/

theorem entityRemove_snd (s : entityStorage) (i : Nat) :
    (s.Remove i).2 = true ↔ i < s.items.length - 1 := by
  unfold entityStorage.Remove
  split
  · rename_i h
    simp [h]
  · rename_i h
    simp [h]

theorem entityRemove_len (s : entityStorage) (i : Nat) :
    (s.Remove i).1.items.length = s.items.length - 1 := by
  unfold entityStorage.Remove
  split
  · rename_i h
    show ((s.items.set i (s.items.getD (s.items.length - 1) ⟨0, 0⟩)).take
      (s.items.length - 1)).length = s.items.length - 1
    rw [List.length_take, List.length_set]
    omega
  · show (s.items.take (s.items.length - 1)).length = s.items.length - 1
    rw [List.length_take]
    omega

theorem entityRemove_get (s : entityStorage) (i : Nat) (hswap : i < s.items.length - 1) :
    ((s.Remove i).1).Get i = s.Get (s.items.length - 1) := by
  unfold entityStorage.Remove entityStorage.Get
  rw [if_pos hswap]
  show ((s.items.set i (s.items.getD (s.items.length - 1) ⟨0, 0⟩)).take
    (s.items.length - 1)).getD i ⟨0, 0⟩ = s.items.getD (s.items.length - 1) ⟨0, 0⟩
  rw [getD_take _ _ i _ hswap]
  exact getD_set_self _ i _ _ (by omega)

/- ### Lemmas: pointer presence after `Init` -/

theorem init_pointer_isSome (inc : Nat) (fs : Bool) (comps : List componentType)
    (a : archetype) (h : archetype.Init inc fs comps = some a) (id : Nat)
    (hid : id < MaskTotalBits) :
    (a.getStorage id).pointer.isSome = true ↔ id ∈ a.Ids := by
  have hIds := (Init_elim inc fs comps a h).2.2.1
  constructor
  · intro hp
    by_contra hm
    have habs := Init_getStorage_notmem inc fs comps a h id hid (by rw [← hIds]; exact hm)
    rw [habs] at hp
    cases hp
  · intro hm
    rw [hIds] at hm
    obtain ⟨c, hc, hcid⟩ := List.mem_map.mp hm
    obtain ⟨⟨k, hk⟩, hval⟩ := List.mem_iff_get.mp hc
    have hlay := Init_getStorage_mem inc fs comps a h k hk
    rw [hval, hcid] at hlay
    rw [hlay]
    rfl

/- ### The claims -/

/-- C6: archetype construction panics (modelled as `none`) when the
component list is not strictly sorted ascending by id, and `archetype.Add`
panics when the number of supplied components differs from the number of
the archetype's component ids; both abort instead of returning an error. -/
theorem C6_contract_panics (inc : Nat) (fs : Bool) (comps : List componentType)
    (h1 : ¬ List.Pairwise (· < ·) (comps.map (fun c => c.id)))
    (a : archetype) (e : Entity) (cs : List (Nat × List Nat))
    (h2 : cs.length ≠ a.Ids.length) :
    archetype.Init inc fs comps = none ∧ a.Add e cs = none := by
  constructor
  · have hns : ¬ (sortedCheck comps (-1) = true ∧
        comps.all (fun c => c.id < MaskTotalBits) = true) :=
      fun hcond => h1 (sortedCheck_pairwise comps (-1) hcond.1)
    unfold archetype.Init
    rw [if_neg hns]
  · unfold archetype.Add
    rw [if_pos h2]

theorem C6_witness :
    archetype.Init 2 true
      [{ id := 1, size := 1, align := 1 }, { id := 0, size := 1, align := 1 }] = none ∧
    demoArch.Add ⟨9, 0⟩ [] = none :=
  C6_contract_panics 2 true
    [{ id := 1, size := 1, align := 1 }, { id := 0, size := 1, align := 1 }]
    (by decide) demoArch ⟨9, 0⟩ [] (by decide)

/-- C8: for every archetype constructed by `Init` and every component id,
`HasComponent id` is true exactly when `id` is in the archetype's id
list — including zero-sized components — because `Init` stores a non-null
buffer pointer in the layout entry of every present id regardless of
size. -/
theorem C8_hasComponent_iff (inc : Nat) (fs : Bool) (comps : List componentType)
    (a : archetype) (h : archetype.Init inc fs comps = some a) (id : Nat)
    (hid : id < MaskTotalBits) :
    a.HasComponent id = true ↔ id ∈ a.Ids := by
  unfold archetype.HasComponent
  exact init_pointer_isSome inc fs comps a h id hid

theorem C8_witness :
    (demoArchTag.HasComponent 3 = true ↔ 3 ∈ demoArchTag.Ids) ∧
    (demoArchTag.HasComponent 5 = true ↔ 5 ∈ demoArchTag.Ids) ∧
    demoArchTag.HasComponent 3 = true ∧ demoArchTag.HasComponent 5 = false := by
  refine ⟨?_, ?_, by decide, by decide⟩
  · exact C8_hasComponent_iff 2 true [{ id := 3, size := 0, align := 1 }] demoArchTag
      (by decide) 3 (by decide)
  · exact C8_hasComponent_iff 2 true [{ id := 3, size := 0, align := 1 }] demoArchTag
      (by decide) 5 (by decide)

/-- C1 (counterexample): an archetype built by `Init` from a single
zero-sized component of id 0 has a non-null access-table pointer for id 0
even though the component's size is 0, refuting
`pointer != null ⇔ id ∈ ids ∧ size > 0`. -/
theorem C1_counterexample :
    (((archetype.Init 1 false [{ id := 0, size := 0, align := 1 }]).getD
        emptyArchetype).getStorage 0).pointer.isSome = true ∧
    0 ∈ ((archetype.Init 1 false [{ id := 0, size := 0, align := 1 }]).getD
        emptyArchetype).Ids ∧
    ({ id := 0, size := 0, align := 1 } : componentType).size = 0 := by
  decide

/-- C1 (amended): for every archetype constructed by `Init` and every
component id, the access-table entry for that id has a non-null pointer
if and only if the id is one of the archetype's component ids — regardless
of the component's size; for ids not in the archetype the pointer is
null. -/
theorem C1_access_pointer_iff (inc : Nat) (fs : Bool) (comps : List componentType)
    (a : archetype) (h : archetype.Init inc fs comps = some a) (id : Nat)
    (hid : id < MaskTotalBits) :
    ((a.getStorage id).pointer ≠ none ↔ id ∈ a.Ids) ∧
    (id ∉ a.Ids → (a.getStorage id).pointer = none) := by
  have hiff := init_pointer_isSome inc fs comps a h id hid
  rw [Option.isSome_iff_ne_none] at hiff
  refine ⟨hiff, fun hm => ?_⟩
  by_contra hp
  exact hm (hiff.mp hp)

theorem C1_witness :
    (((demoArchTag.getStorage 3).pointer ≠ none ↔ 3 ∈ demoArchTag.Ids) ∧
      (3 ∉ demoArchTag.Ids → (demoArchTag.getStorage 3).pointer = none)) ∧
    (((demoArchTag.getStorage 5).pointer ≠ none ↔ 5 ∈ demoArchTag.Ids) ∧
      (5 ∉ demoArchTag.Ids → (demoArchTag.getStorage 5).pointer = none)) := by
  constructor
  · exact C1_access_pointer_iff 2 true [{ id := 3, size := 0, align := 1 }] demoArchTag
      (by decide) 3 (by decide)
  · exact C1_access_pointer_iff 2 true [{ id := 3, size := 0, align := 1 }] demoArchTag
      (by decide) 5 (by decide)

/-- C9: for every component with declared size `s` and alignment `a > 0`,
the item size stored in the archetype's layout is `s` rounded up to the
next multiple of `a` (the least multiple of `a` that is at least `s`),
and it is this rounded size that `get` uses as the stride
`base + itemSize * row`. -/
theorem C9_item_size_rounded (inc : Nat) (fs : Bool) (comps : List componentType)
    (a : archetype) (h : archetype.Init inc fs comps = some a)
    (k : Nat) (hk : k < comps.length) (ha : 0 < (comps.get ⟨k, hk⟩).align) :
    (a.getStorage (comps.get ⟨k, hk⟩).id).itemSize =
      (comps.get ⟨k, hk⟩).size + ((comps.get ⟨k, hk⟩).align - 1) -
        ((comps.get ⟨k, hk⟩).size + ((comps.get ⟨k, hk⟩).align - 1)) %
          (comps.get ⟨k, hk⟩).align ∧
    (comps.get ⟨k, hk⟩).size ≤ (a.getStorage (comps.get ⟨k, hk⟩).id).itemSize ∧
    (comps.get ⟨k, hk⟩).align ∣ (a.getStorage (comps.get ⟨k, hk⟩).id).itemSize ∧
    (∀ m, (comps.get ⟨k, hk⟩).align ∣ m → (comps.get ⟨k, hk⟩).size ≤ m →
      (a.getStorage (comps.get ⟨k, hk⟩).id).itemSize ≤ m) ∧
    (∀ row, a.accessGet row (comps.get ⟨k, hk⟩).id =
      some (k, (a.getStorage (comps.get ⟨k, hk⟩).id).itemSize * row)) := by
  have hlay := Init_getStorage_mem inc fs comps a h k hk
  have hsz : (a.getStorage (comps.get ⟨k, hk⟩).id).itemSize =
      roundUp (comps.get ⟨k, hk⟩).size (comps.get ⟨k, hk⟩).align := by
    rw [hlay]
  refine ⟨?_, ?_, ?_, ?_, ?_⟩
  · rw [hsz]
    unfold roundUp
    have hdm := Nat.div_add_mod
      ((comps.get ⟨k, hk⟩).size + ((comps.get ⟨k, hk⟩).align - 1)) (comps.get ⟨k, hk⟩).align
    have hml := Nat.mod_le
      ((comps.get ⟨k, hk⟩).size + ((comps.get ⟨k, hk⟩).align - 1)) (comps.get ⟨k, hk⟩).align
    rw [Nat.mul_comm]
    omega
  · rw [hsz]
    exact roundUp_ge _ _ ha
  · rw [hsz]
    exact roundUp_dvd _ _
  · intro m hdvd hm
    rw [hsz]
    exact roundUp_min _ _ m ha hdvd hm
  · intro row
    have hp : (a.getStorage (comps.get ⟨k, hk⟩).id).pointer = some (k, 0) := by
      rw [hlay]
    rw [accessGet_eq a _ k row hp, Nat.zero_add]

theorem C9_witness :
    (demoArchPad.getStorage 2).itemSize = 8 ∧ (8 : Nat) ≠ 5 ∧
    demoArchPad.accessGet 3 2 = some (0, 24) := by
  have h := C9_item_size_rounded 4 true [{ id := 2, size := 5, align := 4 }] demoArchPad
    (by decide) 0 (by decide) (by decide)
  refine ⟨?_, by decide, ?_⟩
  · exact h.1.trans (by decide)
  · have h5 := h.2.2.2.2 3
    exact h5.trans (by decide)

/-- C10: `Storage.Remove` performs no bounds check.  In bounds
(`0 < len`, `index < len`) the length decreases by exactly one and stays
at most `cap`; called on an empty storage, the `uint32` length wraps to
`2^32 - 1` and the swap branch is taken, reading element index
`2^32 - 1`, which lies outside the allocation of any `uint32`
capacity. -/
theorem C10_remove_unchecked (s : Storage) (h0 : 0 < s.len) (hcap : s.len ≤ s.cap)
    (hu : s.len < U32MOD) (i : Nat) (_hi : i < s.len)
    (s' : Storage) (h0' : s'.len = 0) (hcap' : s'.cap < U32MOD) :
    ((s.Remove i).1.len = s.len - 1 ∧ (s.Remove i).1.len ≤ s.cap) ∧
    ((s'.Remove 0).2 = true ∧
      (s'.Remove 0).1.len = U32MOD - 1 ∧
      s'.cap ≤ (s'.len + (U32MOD - 1)) % U32MOD) := by
  have ho : (s.len + (U32MOD - 1)) % U32MOD = s.len - 1 := u32_pred s.len h0 hu
  have ho' : (s'.len + (U32MOD - 1)) % U32MOD = U32MOD - 1 := by
    rw [h0', Nat.zero_add]
    exact Nat.mod_eq_of_lt (by decide)
  constructor
  · constructor
    · unfold Storage.Remove
      rw [ho]
      split
      · rfl
      · rfl
    · unfold Storage.Remove
      rw [ho]
      have hle : s.len - 1 ≤ s.cap := by omega
      split
      · exact hle
      · exact hle
  · refine ⟨?_, ?_, ?_⟩
    · unfold Storage.Remove
      rw [ho']
      rw [if_pos (by decide : (0 : Nat) < U32MOD - 1)]
    · unfold Storage.Remove
      rw [ho']
      rw [if_pos (by decide : (0 : Nat) < U32MOD - 1)]
    · rw [ho']
      omega

theorem C10_witness :
    ((demoStore.Remove 0).1.len = 1 ∧ (demoStore.Remove 0).1.len ≤ 2) ∧
    ((demoStoreEmpty.Remove 0).2 = true ∧
      (demoStoreEmpty.Remove 0).1.len = 4294967295 ∧
      demoStoreEmpty.cap ≤ (demoStoreEmpty.len + (U32MOD - 1)) % U32MOD) := by
  have h := C10_remove_unchecked demoStore (by decide) (by decide) (by decide) 0 (by decide)
    demoStoreEmpty (by decide) (by decide)
  exact ⟨⟨h.1.1.trans (by decide), h.1.2⟩,
    ⟨h.2.1, h.2.2.1.trans (by decide), h.2.2.2⟩⟩

/- ### Helper lemmas about `Alloc` -/

theorem extend_buffers_getD_zero_size (b : archetype) (hcore : b.WFcore) (k : Nat)
    (hk : k < b.Ids.length) (hsz : (b.getStorage (b.Ids.getD k 0)).itemSize = 0) :
    (b.extend).buffers.getD k [] = b.buffers.getD k [] := by
  by_cases hlc : b.len < b.cap
  · rw [extend_of_lt b hlc]
  · rw [extend_buffers_grow b hlc]
    exact extend_fold_getD_zero b hcore _ k hk hsz

theorem alloc_len (a : archetype) (e : Entity) (z : Bool) (hlc : a.len < a.cap)
    (hu : a.len + 1 < U32MOD) :
    (a.Alloc e z).1.len = a.len + 1 := by
  have hext := extend_of_lt ({ a with entities := (a.entities.Add e).1 } : archetype) hlc
  cases z
  · show (({ a with entities := (a.entities.Add e).1 } : archetype).extend.len + 1) % U32MOD =
      a.len + 1
    rw [hext]
    exact Nat.mod_eq_of_lt hu
  · show ((({ a with entities := (a.entities.Add e).1 } : archetype).extend.ZeroAll
        (a.entities.Add e).2).len + 1) % U32MOD = a.len + 1
    rw [hext]
    exact Nat.mod_eq_of_lt hu

theorem alloc_buffers_getD_zero_size (a : archetype) (hcore : a.WFcore) (e : Entity) (z : Bool)
    (k : Nat) (hk : k < a.Ids.length)
    (hsz : (a.getStorage (a.Ids.getD k 0)).itemSize = 0) :
    (a.Alloc e z).1.buffers.getD k [] = a.buffers.getD k [] := by
  cases z
  · show (({ a with entities := (a.entities.Add e).1 } : archetype).extend).buffers.getD k [] =
      a.buffers.getD k []
    exact extend_buffers_getD_zero_size
      ({ a with entities := (a.entities.Add e).1 } : archetype) hcore k hk hsz
  · show ((({ a with entities := (a.entities.Add e).1 } : archetype).extend.ZeroAll
        ((a.entities.Add e).2)).buffers).getD k [] = a.buffers.getD k []
    have hkE : k < (({ a with entities := (a.entities.Add e).1 } : archetype).extend).Ids.length := by
      rw [extend_Ids]
      exact hk
    have hszE : ((({ a with entities := (a.entities.Add e).1 } : archetype).extend).getStorage
        ((({ a with entities := (a.entities.Add e).1 } : archetype).extend).Ids.getD k 0)).itemSize
        = 0 := by
      rw [extend_Ids, extend_getStorage]
      exact hsz
    rw [zeroAll_buffers, zeroAll_fold_getD_zero
      (({ a with entities := (a.entities.Add e).1 } : archetype).extend)
      (extend_WFcore _ hcore) ((a.entities.Add e).2) k hkE hszE]
    exact extend_buffers_getD_zero_size
      ({ a with entities := (a.entities.Add e).1 } : archetype) hcore k hk hsz

/-- C2 (counterexample): the archetype built by `Init` from the single
zero-sized component of id 3 stores item size 0 for id 3, yet
`get(0, 3)` returns a non-null pointer (the column's base), refuting
"`get` returns null for zero-sized components". -/
theorem C2_counterexample :
    (demoArchTag.getStorage 3).itemSize = 0 ∧
    demoArchTag.accessGet 0 3 ≠ none := by
  decide

/-- C2 (amended): for every archetype constructed by `Init` containing a
zero-sized component id, `get(row, id)` returns the column's non-null
base pointer (the same `some (k, 0)` for every row); `HasComponent` is
true and the mask bit is set; and push operations (`Alloc`) leave the
zero-sized column's buffer untouched and only increment `len`. -/
theorem C2_zero_size (inc : Nat) (fs : Bool) (comps : List componentType) (a : archetype)
    (h : archetype.Init inc fs comps = some a) (hinc : 0 < inc)
    (k : Nat) (hk : k < comps.length)
    (hsz : (a.getStorage (comps.get ⟨k, hk⟩).id).itemSize = 0) :
    (∀ row, a.accessGet row (comps.get ⟨k, hk⟩).id = some (k, 0)) ∧
    a.HasComponent (comps.get ⟨k, hk⟩).id = true ∧
    a.mask.getD (comps.get ⟨k, hk⟩).id false = true ∧
    (∀ e z, (a.Alloc e z).1.len = a.len + 1 ∧
      (a.Alloc e z).1.buffers.getD k [] = a.buffers.getD k []) := by
  have hlay := Init_getStorage_mem inc fs comps a h k hk
  have hp : (a.getStorage (comps.get ⟨k, hk⟩).id).pointer = some (k, 0) := by rw [hlay]
  obtain ⟨_, _, hIds, _, _, _, _, _, hlen, hcapv, _⟩ := Init_elim inc fs comps a h
  have hcore := Init_WFcore inc fs comps a h
  have hkI : k < a.Ids.length := by
    rw [hIds, List.length_map]
    exact hk
  have hidk : a.Ids.getD k 0 = (comps.get ⟨k, hk⟩).id := by
    rw [hIds]
    exact getD_map_comp comps k hk
  refine ⟨?_, ?_, ?_, ?_⟩
  · intro row
    rw [accessGet_eq a _ k row hp, hsz, Nat.zero_mul, Nat.add_zero]
  · unfold archetype.HasComponent
    rw [hp]
    rfl
  · exact Init_mask_mem inc fs comps a h k hk
  · intro e z
    have hcappos : 0 < a.cap := by
      rw [hcapv]
      by_cases hfs : fs = true
      · rw [if_pos hfs]
        exact hinc
      · rw [if_neg hfs]
        decide
    have hlc : a.len < a.cap := by
      rw [hlen]
      exact hcappos
    constructor
    · exact alloc_len a e z hlc (by rw [hlen]; decide)
    · apply alloc_buffers_getD_zero_size a hcore e z k hkI
      rw [hidk]
      exact hsz

theorem C2_witness :
    (∀ row, demoArchTag.accessGet row 3 = some (0, 0)) ∧
    demoArchTag.HasComponent 3 = true ∧
    demoArchTag.mask.getD 3 false = true ∧
    ((demoArchTag.Alloc ⟨1, 0⟩ true).1.len = demoArchTag.len + 1 ∧
      (demoArchTag.Alloc ⟨1, 0⟩ true).1.buffers.getD 0 [] = demoArchTag.buffers.getD 0 []) := by
  have h := C2_zero_size 2 true [{ id := 3, size := 0, align := 1 }] demoArchTag
    (by decide) (by decide) 0 (by decide) (by decide)
  exact ⟨h.1, h.2.1, h.2.2.1, h.2.2.2 ⟨1, 0⟩ true⟩

/-- C3 (counterexample): the holder archetype starts with `cap = 1` and
increment 2.  After a first `Alloc` it has `len = cap = 1`; the second
`Alloc` grows the capacity to 2 — the Go code's
`inc * ((cap + inc) / inc)` with floor division — whereas the claimed
formula `inc * ⌈(cap + inc) / inc⌉ = 2 * ⌈3/2⌉` yields 4. -/
theorem C3_counterexample :
    (demoArchHolder.Alloc ⟨1, 0⟩ true).1.len = (demoArchHolder.Alloc ⟨1, 0⟩ true).1.cap ∧
    ((demoArchHolder.Alloc ⟨1, 0⟩ true).1.Alloc ⟨2, 0⟩ true).1.cap = 2 ∧
    demoArchHolder.capacityIncrement *
      ((demoArchHolder.cap + demoArchHolder.capacityIncrement +
          (demoArchHolder.capacityIncrement - 1)) / demoArchHolder.capacityIncrement) = 4 := by
  decide

/-- C3 (amended): when `len = cap`, growing sets the new capacity to
`grow_increment * ((cap + grow_increment) / grow_increment)` with floor
division — the smallest multiple of `grow_increment` strictly greater
than the old cap — and the bytes of all existing elements are copied into
the new allocation unchanged.  (For the plain `Storage` store the new
capacity is `cap + grow_increment`, which agrees with the claimed ceiling
formula only because that store's capacity is always a multiple of its
increment.) -/
theorem C3_grow (a : archetype) (hWF : a.WF) (hfull : a.len = a.cap)
    (hcapU : a.cap + a.capacityIncrement < U32MOD)
    (s : Storage) (hsfull : s.len = s.cap) (hscapU : s.cap + s.capacityIncrement < U32MOD)
    (hsdata : s.data.length = s.cap * s.itemSize) :
    ((a.extend).cap =
        a.capacityIncrement * ((a.cap + a.capacityIncrement) / a.capacityIncrement) ∧
      a.cap < (a.extend).cap ∧
      a.capacityIncrement ∣ (a.extend).cap ∧
      (∀ m, a.capacityIncrement ∣ m → a.cap < m → (a.extend).cap ≤ m) ∧
      (∀ k, k < a.Ids.length →
        readBytes ((a.extend).buffers.getD k []) 0
            (a.cap * (a.getStorage (a.Ids.getD k 0)).itemSize) =
          a.buffers.getD k [])) ∧
    ((s.extend).cap = s.cap + s.capacityIncrement ∧
      readBytes (s.extend).data 0 s.data.length = s.data) := by
  have hinc := WF_inc_pos a hWF
  have hnlt : ¬ a.len < a.cap := by omega
  have hcapG := extend_cap_grow a hnlt
  have hGeq := growCap_eq a.cap a.capacityIncrement hcapU hinc
  have hcore := WF_to_core a hWF
  constructor
  · refine ⟨?_, ?_, ?_, ?_, ?_⟩
    · rw [hcapG, hGeq]
    · rw [hcapG]
      exact growCap_gt _ _ hcapU hinc
    · rw [hcapG]
      exact growCap_dvd _ _ hcapU hinc
    · intro m hdvd hm
      rw [hcapG]
      exact growCap_min _ _ m hcapU hinc hdvd hm
    · intro k hk
      by_cases hsz : (a.getStorage (a.Ids.getD k 0)).itemSize = 0
      · have hblen := (hcore.2 k hk).2.2
        rw [hsz, Nat.mul_zero] at hblen
        rw [hsz, Nat.mul_zero, extend_buffers_getD_zero_size a hcore k hk hsz,
          List.length_eq_zero.mp hblen]
        rfl
      · rw [extend_buffers_grow a hnlt, extend_fold_getD a hcore _ k hk hsz]
        have hblen := (hcore.2 k hk).2.2
        rw [← hblen]
        exact readBytes_writeBytes (a.buffers.getD k []) _ 0 (by
          rw [List.length_replicate, Nat.zero_add, hblen]
          exact Nat.mul_le_mul_right _ (Nat.le_of_lt (growCap_gt _ _ hcapU hinc)))
  · have hcond : s.cap < s.len + 1 := by omega
    have hncap : (s.cap + s.capacityIncrement) % U32MOD = s.cap + s.capacityIncrement :=
      Nat.mod_eq_of_lt hscapU
    constructor
    · unfold Storage.extend
      rw [if_pos hcond]
      show (s.cap + s.capacityIncrement) % U32MOD = s.cap + s.capacityIncrement
      exact hncap
    · unfold Storage.extend
      rw [if_pos hcond]
      show readBytes (writeBytes
        (List.replicate ((s.cap + s.capacityIncrement) % U32MOD * s.itemSize) 0) 0 s.data)
        0 s.data.length = s.data
      exact readBytes_writeBytes s.data _ 0 (by
        rw [List.length_replicate, Nat.zero_add, hncap, hsdata]
        exact Nat.mul_le_mul_right _ (Nat.le_add_right _ _))

theorem C3_witness :
    (demoArch2.extend).cap = 4 ∧ (demoStore.extend).cap = 4 := by
  have h := C3_grow demoArch2 (by decide) (by decide) (by decide)
    demoStore (by decide) (by decide) (by decide)
  exact ⟨h.1.1.trans (by decide), h.2.1.trans (by decide)⟩

theorem readBytes_writeBytes_n (buf src : List Nat) (off n : Nat) (hsrc : src.length = n)
    (h : off + n ≤ buf.length) :
    readBytes (writeBytes buf off src) off n = src := by
  subst hsrc
  exact readBytes_writeBytes src buf off h

/-- C7: for every well-formed archetype, in-bounds row, and component id
present with non-zero size, reading `get(row, id)` immediately after
`set(row, id, src)` yields bytes equal to the source for the component's
stored item size, and the `set` modifies no other column and no other row
of the same column; `len` and the entities column are untouched. -/
theorem C7_set_get (a : archetype) (hWF : a.WF) (row : Nat) (hrow : row < a.len)
    (k : Nat) (hk : k < a.Ids.length)
    (hsz : ¬ (a.getStorage (a.Ids.getD k 0)).itemSize = 0) (src : List Nat) :
    (a.Set row (a.Ids.getD k 0) src).getBytes row (a.Ids.getD k 0) =
      readBytes src 0 (a.getStorage (a.Ids.getD k 0)).itemSize ∧
    (a.Set row (a.Ids.getD k 0) src).len = a.len ∧
    (a.Set row (a.Ids.getD k 0) src).entities = a.entities ∧
    (∀ k', k' < a.Ids.length → k' ≠ k → ∀ row',
      (a.Set row (a.Ids.getD k 0) src).getBytes row' (a.Ids.getD k' 0) =
        a.getBytes row' (a.Ids.getD k' 0)) ∧
    (∀ row', row' < a.cap → row' ≠ row →
      (a.Set row (a.Ids.getD k 0) src).getBytes row' (a.Ids.getD k 0) =
        a.getBytes row' (a.Ids.getD k 0)) := by
  have hcore := WF_to_core a hWF
  have hp := (hcore.2 k hk).2.1
  have hblen := (hcore.2 k hk).2.2
  have hkb : k < a.buffers.length := by
    rw [hcore.1]
    exact hk
  have hbufs := set_buffers_eq a row (a.Ids.getD k 0) k src hsz hp
  have hps : ((a.Set row (a.Ids.getD k 0) src).getStorage (a.Ids.getD k 0)).pointer =
      some (k, 0) := by
    rw [set_getStorage]
    exact hp
  have hrowcap : row < a.cap := Nat.lt_of_lt_of_le hrow (WF_len_le_cap a hWF)
  refine ⟨?_, set_len a row _ src, set_entities a row _ src, ?_, ?_⟩
  · rw [getBytes_eq (a.Set row (a.Ids.getD k 0) src) (a.Ids.getD k 0) k row hps,
      set_getStorage, hbufs, getD_set_self _ k _ _ hkb]
    exact readBytes_writeBytes_n _ _ _ _ (readBytes_length _ _ _) (by
      rw [hblen]
      exact off_bound row a.cap _ hrowcap)
  · intro k' hk' hkk row'
    have hp' := (hcore.2 k' hk').2.1
    have hps' : ((a.Set row (a.Ids.getD k 0) src).getStorage (a.Ids.getD k' 0)).pointer =
        some (k', 0) := by
      rw [set_getStorage]
      exact hp'
    rw [getBytes_eq (a.Set row (a.Ids.getD k 0) src) (a.Ids.getD k' 0) k' row' hps',
      set_getStorage, hbufs, getD_set_ne _ k k' _ _ (fun hh => hkk hh.symm),
      getBytes_eq a (a.Ids.getD k' 0) k' row' hp']
  · intro row' hrow' hne
    rw [getBytes_eq (a.Set row (a.Ids.getD k 0) src) (a.Ids.getD k 0) k row' hps,
      set_getStorage, hbufs, getD_set_self _ k _ _ hkb,
      getBytes_eq a (a.Ids.getD k 0) k row' hp]
    apply readBytes_writeBytes_disjoint
    rw [readBytes_length]
    rcases Nat.lt_or_ge row' row with hlt | hge
    · left
      calc (a.getStorage (a.Ids.getD k 0)).itemSize * row' +
            (a.getStorage (a.Ids.getD k 0)).itemSize =
          (a.getStorage (a.Ids.getD k 0)).itemSize * (row' + 1) := by ring
        _ ≤ (a.getStorage (a.Ids.getD k 0)).itemSize * row :=
          Nat.mul_le_mul_left _ hlt
    · right
      have hlt2 : row < row' := by omega
      calc (a.getStorage (a.Ids.getD k 0)).itemSize * row +
            (a.getStorage (a.Ids.getD k 0)).itemSize =
          (a.getStorage (a.Ids.getD k 0)).itemSize * (row + 1) := by ring
        _ ≤ (a.getStorage (a.Ids.getD k 0)).itemSize * row' :=
          Nat.mul_le_mul_left _ hlt2

theorem C7_witness :
    (demoArch2.Set 0 0 [5]).getBytes 0 0 = readBytes [5] 0 1 ∧
    (demoArch2.Set 0 0 [5]).getBytes 0 0 = [5] ∧
    (demoArch2.Set 0 0 [5]).getBytes 1 0 = demoArch2.getBytes 1 0 ∧
    (demoArch2.Set 0 0 [5]).len = demoArch2.len := by
  have h := C7_set_get demoArch2 (by decide) 0 (by decide) 0 (by decide) (by decide) [5]
  exact ⟨h.1, h.1.trans (by decide), h.2.2.2.2 1 (by decide) (by decide), h.2.1⟩

theorem off_bound' (row cap sz : Nat) (h : row < cap) : row * sz + sz ≤ cap * sz := by
  calc row * sz + sz = sz * row + sz := by ring
    _ ≤ cap * sz := off_bound row cap sz h

theorem storageRemove_snd (s : Storage) (i : Nat) :
    (s.Remove i).2 = true ↔ i < (s.len + (U32MOD - 1)) % U32MOD := by
  unfold Storage.Remove
  split
  · rename_i h
    simp [h]
  · rename_i h
    simp [h]

theorem storageRemove_len (s : Storage) (i : Nat) :
    (s.Remove i).1.len = (s.len + (U32MOD - 1)) % U32MOD := by
  unfold Storage.Remove
  split <;> rfl

theorem storageRemove_fst_swap (s : Storage) (i : Nat)
    (h : i < (s.len + (U32MOD - 1)) % U32MOD) :
    (s.Remove i).1 = ⟨writeBytes s.data (i * s.itemSize)
      (readBytes s.data ((((s.len + (U32MOD - 1)) % U32MOD)) * s.itemSize) s.itemSize),
      s.itemSize, (s.len + (U32MOD - 1)) % U32MOD, s.cap, s.capacityIncrement⟩ := by
  unfold Storage.Remove
  rw [if_pos h]

/-- C4: for every non-empty column store and every in-bounds index `i`,
swap-remove decrements `len` by exactly one and returns true exactly when
`i < len - 1`, in which case the element previously at `len - 1` now
occupies index `i`; the archetype-level `Remove` applies this to the
entities column and to every (non-zero-sized) component column and
returns the same boolean as the entities column. -/
theorem C4_swap_remove (s : Storage) (hdata : s.data.length = s.cap * s.itemSize)
    (hcap : s.len ≤ s.cap) (hu : s.len < U32MOD) (h0 : 0 < s.len) (i : Nat) (hi : i < s.len)
    (a : archetype) (hWF : a.WF) (j : Nat) (hj : j < a.len) :
    ((s.Remove i).1.len = s.len - 1 ∧
      ((s.Remove i).2 = true ↔ i < s.len - 1) ∧
      ((s.Remove i).2 = true →
        (s.Remove i).1.getBytes i = s.getBytes (s.len - 1))) ∧
    ((a.Remove j).1.len = a.len - 1 ∧
      ((a.Remove j).2 = true ↔ j < a.len - 1) ∧
      (a.Remove j).2 = (a.entities.Remove j).2 ∧
      ((a.Remove j).2 = true →
        (a.Remove j).1.GetEntity j = a.GetEntity (a.len - 1) ∧
        (∀ k, k < a.Ids.length → ¬ (a.getStorage (a.Ids.getD k 0)).itemSize = 0 →
          (a.Remove j).1.getBytes j (a.Ids.getD k 0) =
            a.getBytes (a.len - 1) (a.Ids.getD k 0)))) := by
  have ho := u32_pred s.len h0 hu
  constructor
  · refine ⟨?_, ?_, ?_⟩
    · rw [storageRemove_len, ho]
    · rw [storageRemove_snd, ho]
    · intro hsw
      have hilt : i < s.len - 1 := by
        rw [storageRemove_snd, ho] at hsw
        exact hsw
      unfold Storage.getBytes
      rw [storageRemove_fst_swap s i (by rw [ho]; exact hilt)]
      show readBytes (writeBytes s.data (i * s.itemSize)
          (readBytes s.data ((((s.len + (U32MOD - 1)) % U32MOD)) * s.itemSize) s.itemSize))
        (i * s.itemSize) s.itemSize = readBytes s.data ((s.len - 1) * s.itemSize) s.itemSize
      rw [ho]
      apply readBytes_writeBytes_n _ _ _ _ (readBytes_length _ _ _)
      rw [hdata]
      exact off_bound' i s.cap s.itemSize (by omega)
  · have h0a : 0 < a.len := Nat.lt_of_le_of_lt (Nat.zero_le j) hj
    have hua : a.len < U32MOD :=
      Nat.lt_of_le_of_lt (WF_len_le_cap a hWF) (WF_cap_lt a hWF)
    have hoa := u32_pred a.len h0a hua
    have hcore := WF_to_core a hWF
    have hent := WF_entities_length a hWF
    have hbool : (a.Remove j).2 = true ↔ j < a.len - 1 := by
      rw [remove_snd, entityRemove_snd, hent]
    refine ⟨?_, hbool, remove_snd a j, ?_⟩
    · rw [remove_fst_len, hoa]
    · intro hsw
      have hjlt : j < a.len - 1 := hbool.mp hsw
      constructor
      · show ((a.entities.Remove j).1).Get j = a.entities.Get (a.len - 1)
        have hg := entityRemove_get a.entities j (by rw [hent]; exact hjlt)
        rw [hg, hent]
      · intro k hk hszk
        have hp := (hcore.2 k hk).2.1
        have hblen := (hcore.2 k hk).2.2
        have hps : ((a.Remove j).1.getStorage (a.Ids.getD k 0)).pointer = some (k, 0) := by
          rw [remove_fst_getStorage]
          exact hp
        rw [getBytes_eq (a.Remove j).1 (a.Ids.getD k 0) k j hps,
          remove_fst_getStorage, remove_fst_buffers]
        have hio : ¬ (j = (a.len + (U32MOD - 1)) % U32MOD ∨
            (a.getStorage (a.Ids.getD k 0)).itemSize = 0) := by
          rw [hoa]
          push_neg
          exact ⟨by omega, hszk⟩
        rw [remove_fold_getD a hcore j _ k hk hio,
          getBytes_eq a (a.Ids.getD k 0) k (a.len - 1) hp, hoa]
        simp only [Nat.zero_add]
        rw [Nat.mul_comm ((a.getStorage (a.Ids.getD k 0)).itemSize) j,
          Nat.mul_comm ((a.getStorage (a.Ids.getD k 0)).itemSize) (a.len - 1)]
        apply readBytes_writeBytes_n _ _ _ _ (readBytes_length _ _ _)
        rw [hblen]
        have hjcap : j < a.cap := by
          have hlcap := WF_len_le_cap a hWF
          omega
        exact off_bound' j a.cap _ hjcap

theorem C4_witness :
    (demoStore.Remove 0).1.len = 1 ∧
    ((demoStore.Remove 0).2 = true ↔ (0 : Nat) < 2 - 1) ∧
    (demoStore.Remove 0).1.getBytes 0 = demoStore.getBytes 1 ∧
    (demoArch2.Remove 0).1.len = 1 ∧
    ((demoArch2.Remove 0).2 = true ↔ (0 : Nat) < 2 - 1) ∧
    (demoArch2.Remove 0).1.GetEntity 0 = demoArch2.GetEntity 1 ∧
    (demoArch2.Remove 0).1.getBytes 0 0 = demoArch2.getBytes 1 0 ∧
    (demoArch2.Remove 0).1.getBytes 0 0 = [9] := by
  have h := C4_swap_remove demoStore (by decide) (by decide) (by decide) (by decide)
    0 (by decide) demoArch2 (by decide) 0 (by decide)
  have hswS : (demoStore.Remove 0).2 = true := by decide
  have hswA : (demoArch2.Remove 0).2 = true := by decide
  refine ⟨h.1.1.trans (by decide), h.1.2.1, h.1.2.2 hswS, h.2.1.trans (by decide),
    h.2.2.1, (h.2.2.2.2 hswA).1, (h.2.2.2.2 hswA).2 0 (by decide) (by decide),
    ((h.2.2.2.2 hswA).2 0 (by decide) (by decide)).trans (by decide)⟩

theorem layouts_len_update (b : archetype) (n : Nat) :
    ({ b with len := n } : archetype).layouts = b.layouts := rfl

theorem buffers_len_update (b : archetype) (n : Nat) :
    ({ b with len := n } : archetype).buffers = b.buffers := rfl

theorem getStorage_len_update (b : archetype) (n id : Nat) :
    ({ b with len := n } : archetype).getStorage id = b.getStorage id := by
  unfold archetype.getStorage
  rw [layouts_len_update]

theorem getBytes_len_update (b : archetype) (n row id : Nat) :
    ({ b with len := n } : archetype).getBytes row id = b.getBytes row id := by
  unfold archetype.getBytes archetype.accessGet
  rw [getStorage_len_update, buffers_len_update]

/-- C5 (counterexample): `Alloc` with `zero = false` does not
zero-initialize the new row.  Removing the last row of `demoArch2` leaves
its bytes (`9`) in the buffer; the next `Alloc ⟨3,0⟩ false` hands out that
row again with the stale byte still readable. -/
theorem C5_counterexample :
    ((demoArch2.Remove 1).1.Alloc ⟨3, 0⟩ false).2 = 1 ∧
    ((demoArch2.Remove 1).1.Alloc ⟨3, 0⟩ false).1.getBytes 1 0 = [9] := by
  decide

/-- C5 (amended): `Alloc(entity, zero)` appends the entity to the
entities column, grows the component columns in lockstep if needed, and —
when `zero` is true — zero-initializes the new row in every component
column; it increments `len` by one and returns the row index equal to the
old `len`. -/
theorem C5_alloc (a : archetype) (hWF : a.WF) (e : Entity)
    (hcap : a.cap + a.capacityIncrement < U32MOD) :
    (a.Alloc e true).2 = a.len ∧
    (a.Alloc e true).1.entities.items = a.entities.items ++ [e] ∧
    (a.Alloc e true).1.len = a.len + 1 ∧
    (a.Alloc e true).1.len ≤ (a.Alloc e true).1.cap ∧
    (∀ k, k < a.Ids.length →
      ((a.Alloc e true).1.buffers.getD k []).length =
        (a.Alloc e true).1.cap * (a.getStorage (a.Ids.getD k 0)).itemSize) ∧
    (∀ k, k < a.Ids.length → ¬ (a.getStorage (a.Ids.getD k 0)).itemSize = 0 →
      (a.Alloc e true).1.getBytes a.len (a.Ids.getD k 0) =
        List.replicate (a.getStorage (a.Ids.getD k 0)).itemSize 0) := by
  have hcore := WF_to_core a hWF
  have hinc := WF_inc_pos a hWF
  have hentlen := WF_entities_length a hWF
  have hlencap := WF_len_le_cap a hWF
  have hcapU := WF_cap_lt a hWF
  have hidx : (a.entities.Add e).2 = a.len := hentlen
  have hcore2 : (({ a with entities := (a.entities.Add e).1 } : archetype).extend).WFcore :=
    extend_WFcore ({ a with entities := (a.entities.Add e).1 } : archetype) hcore
  have hIds : (({ a with entities := (a.entities.Add e).1 } : archetype)).Ids = a.Ids := rfl
  have hl2cap : a.len < (({ a with entities := (a.entities.Add e).1 } : archetype).extend).cap ∧
      (({ a with entities := (a.entities.Add e).1 } : archetype).extend).cap < U32MOD := by
    by_cases hlc : a.len < a.cap
    · rw [extend_of_lt ({ a with entities := (a.entities.Add e).1 } : archetype) hlc]
      exact ⟨hlc, hcapU⟩
    · rw [extend_cap_grow ({ a with entities := (a.entities.Add e).1 } : archetype) hlc]
      show a.len < growCap a.cap a.capacityIncrement ∧
        growCap a.cap a.capacityIncrement < U32MOD
      constructor
      · have hgt := growCap_gt a.cap a.capacityIncrement hcap hinc
        omega
      · rw [growCap_eq a.cap a.capacityIncrement hcap hinc]
        calc a.capacityIncrement * ((a.cap + a.capacityIncrement) / a.capacityIncrement)
            = (a.cap + a.capacityIncrement) / a.capacityIncrement * a.capacityIncrement :=
              Nat.mul_comm _ _
          _ ≤ a.cap + a.capacityIncrement := Nat.div_mul_le_self _ _
          _ < U32MOD := hcap
  have hlen3 : (a.Alloc e true).1.len = a.len + 1 := by
    show (((({ a with entities := (a.entities.Add e).1 } : archetype).extend).ZeroAll
      ((a.entities.Add e).2)).len + 1) % U32MOD = a.len + 1
    rw [zeroAll_len, extend_len]
    show (a.len + 1) % U32MOD = a.len + 1
    exact Nat.mod_eq_of_lt (by omega)
  refine ⟨hentlen, ?_, hlen3, ?_, ?_, ?_⟩
  · show ((({ a with entities := (a.entities.Add e).1 } : archetype).extend).entities).items =
      a.entities.items ++ [e]
    rw [extend_entities]
    rfl
  · rw [hlen3]
    show a.len + 1 ≤ (({ a with entities := (a.entities.Add e).1 } : archetype).extend).cap
    omega
  · intro k hk
    have hgs : (({ a with entities := (a.entities.Add e).1 } : archetype)).getStorage
        (a.Ids.getD k 0) = a.getStorage (a.Ids.getD k 0) := rfl
    have hk2 : k < ((({ a with entities := (a.entities.Add e).1 } : archetype).extend).ZeroAll
        ((a.entities.Add e).2)).Ids.length := by
      show k < (({ a with entities := (a.entities.Add e).1 } : archetype).extend).Ids.length
      rw [extend_Ids, hIds]
      exact hk
    have hcore3 := zeroAll_WFcore
      (({ a with entities := (a.entities.Add e).1 } : archetype).extend) hcore2
      ((a.entities.Add e).2)
    have h5 := (hcore3.2 k hk2).2.2
    show (((({ a with entities := (a.entities.Add e).1 } : archetype).extend).ZeroAll
        ((a.entities.Add e).2)).buffers.getD k []).length =
      (({ a with entities := (a.entities.Add e).1 } : archetype).extend).cap *
        (a.getStorage (a.Ids.getD k 0)).itemSize
    rw [h5, zeroAll_cap, zeroAll_getStorage, zeroAll_Ids, extend_Ids, hIds, extend_getStorage,
      hgs]
  · intro k hk hszk
    have hgs : (({ a with entities := (a.entities.Add e).1 } : archetype)).getStorage
        (a.Ids.getD k 0) = a.getStorage (a.Ids.getD k 0) := rfl
    have hp := (hcore.2 k hk).2.1
    show ({ ((({ a with entities := (a.entities.Add e).1 } : archetype).extend).ZeroAll
        ((a.entities.Add e).2)) with
      len := (((({ a with entities := (a.entities.Add e).1 } : archetype).extend).ZeroAll
        ((a.entities.Add e).2)).len + 1) % U32MOD } : archetype).getBytes a.len
        (a.Ids.getD k 0) =
      List.replicate (a.getStorage (a.Ids.getD k 0)).itemSize 0
    rw [getBytes_len_update, hidx]
    have hpZ : (((({ a with entities := (a.entities.Add e).1 } : archetype).extend).ZeroAll
        a.len).getStorage (a.Ids.getD k 0)).pointer = some (k, 0) := by
      rw [zeroAll_getStorage, extend_getStorage, hgs]
      exact hp
    rw [getBytes_eq _ (a.Ids.getD k 0) k a.len hpZ, zeroAll_getStorage, extend_getStorage, hgs]
    rw [zeroAll_buffers]
    have hkE : k < (({ a with entities := (a.entities.Add e).1 } : archetype).extend).Ids.length := by
      rw [extend_Ids, hIds]
      exact hk
    have hszE : ¬ ((({ a with entities := (a.entities.Add e).1 } : archetype).extend).getStorage
        ((({ a with entities := (a.entities.Add e).1 } : archetype).extend).Ids.getD k 0)).itemSize
        = 0 := by
      rw [extend_Ids, hIds, extend_getStorage, hgs]
      exact hszk
    rw [zeroAll_fold_getD (({ a with entities := (a.entities.Add e).1 } : archetype).extend)
      hcore2 a.len k hkE hszE]
    have hgsE : ((({ a with entities := (a.entities.Add e).1 } : archetype).extend).getStorage
        ((({ a with entities := (a.entities.Add e).1 } : archetype).extend).Ids.getD k 0)).itemSize
        = (a.getStorage (a.Ids.getD k 0)).itemSize := by
      rw [extend_Ids, hIds, extend_getStorage, hgs]
    rw [hgsE]
    have hlenE := (hcore2.2 k hkE).2.2
    rw [hgsE] at hlenE
    simp only [Nat.zero_add]
    rw [Nat.mul_comm ((a.getStorage (a.Ids.getD k 0)).itemSize) a.len]
    apply readBytes_writeBytes_n _ _ _ _ (List.length_replicate _ _)
    rw [hlenE]
    exact off_bound' a.len _ _ hl2cap.1

theorem C5_witness :
    demoArch2.WF ∧ demoArch2.cap + demoArch2.capacityIncrement < U32MOD ∧
    (demoArch2.Alloc ⟨5, 0⟩ true).2 = 2 ∧
    (demoArch2.Alloc ⟨5, 0⟩ true).1.entities.items =
      demoArch2.entities.items ++ [⟨5, 0⟩] ∧
    (demoArch2.Alloc ⟨5, 0⟩ true).1.len = 3 ∧
    (demoArch2.Alloc ⟨5, 0⟩ true).1.len ≤ (demoArch2.Alloc ⟨5, 0⟩ true).1.cap ∧
    (demoArch2.Alloc ⟨5, 0⟩ true).1.getBytes 2 0 = [0] := by
  have h := C5_alloc demoArch2 (by decide) ⟨5, 0⟩ (by decide)
  exact ⟨by decide, by decide, h.1.trans (by decide), h.2.1, h.2.2.1.trans (by decide),
    h.2.2.2.1, (h.2.2.2.2.2 0 (by decide) (by decide)).trans (by decide)⟩
